import Mathlib

/-!
Shallow embedding of `maze.py` (maze generator and solver).

The program builds a rectangular grid of cells, each with four wall flags
and a visited flag, carves a maze by randomized recursive backtracking
(`_break_walls_r`), opens a fixed entrance and exit
(`_break_entrance_and_exit`), resets the visited flags
(`_reset_cells_visited`), and solves the maze by a depth-first search
(`solve_r`).

Modelling conventions:
* Python's mutable cell grid becomes a total function `Nat → Nat → Cell`
  updated functionally; every read and write in the algorithms is
  bounds-checked exactly as in the source, so values of the function
  outside the grid are never consulted by the algorithms.
* `random.choice(to_visit)` draws from the global random generator.  We
  model the stream of draws as a function `rng : Nat → Nat` together with
  a counter `k`; the choice at step `k` is entry `rng k % len` of the
  candidate list.  The `seed` field of the `Maze` dataclass is carried in
  the state, exactly as in the source, where it is never read.
* The Python recursion of `_break_walls_r` and `solve_r` is embedded with
  a fuel parameter; theorems below show the chosen fuel is never
  exhausted, so the embedding computes the same result as the source.
* Drawing calls (`_draw_cell`, `_animate`, `draw_move`) do not modify the
  grid and are omitted; the order in which cells are entered and walls
  are broken is recorded in explicit trace lists.
-/

namespace MazePy

/-- One grid square, mirroring the Python `Cell` dataclass: a bounding box
(owned by rendering, never consulted by the algorithms), four wall flags
defaulting to present, and a visited flag defaulting to false. -/
structure Cell where
  top_x : Int := 0
  top_y : Int := 0
  bottom_x : Int := 0
  bottom_y : Int := 0
  has_left_wall : Bool := true
  has_right_wall : Bool := true
  has_top_wall : Bool := true
  has_bottom_wall : Bool := true
  visited : Bool := false
deriving Repr, DecidableEq

/-- The `Maze` dataclass: geometry parameters, dimensions, the optional
(never read) seed, and the cell table. -/
structure Maze where
  x1 : Int := 0
  y1 : Int := 0
  num_rows : Nat
  num_cols : Nat
  cell_size_x : Int := 0
  cell_size_y : Int := 0
  seed : Option Nat := none
  cells : Nat → Nat → Cell

/-- Pointwise update of one cell of the table. -/
def updateCell (m : Maze) (i j : Nat) (f : Cell → Cell) : Maze :=
  { m with cells := fun a b => if a = i ∧ b = j then f (m.cells a b) else m.cells a b }

/-- `self._cells[i][j].visited = True`. -/
def setVisited (m : Maze) (i j : Nat) : Maze :=
  updateCell m i j fun c => { c with visited := true }

/-- The cell built by `_create_cells` for row `i`, column `j`. -/
def initCell (x1 y1 : Int) (csx csy : Int) (i j : Nat) : Cell :=
  { top_x := x1 + (j : Int) * csx
    top_y := y1 + (i : Int) * csy
    bottom_x := x1 + ((j : Int) + 1) * csx
    bottom_y := y1 + ((i : Int) + 1) * csy }

/-- The grid as first laid out by `_create_cells`, before any wall is
broken: all walls present, nothing visited. -/
def createCells (x1 y1 : Int) (R C : Nat) (csx csy : Int) (seed : Option Nat) : Maze :=
  { x1 := x1, y1 := y1, num_rows := R, num_cols := C,
    cell_size_x := csx, cell_size_y := csy, seed := seed,
    cells := fun i j => initCell x1 y1 csx csy i j }

/-- `_break_entrance_and_exit`: clear the top wall of `(0,0)` and the
bottom wall of `(num_rows-1, num_cols-1)`. -/
def break_entrance_and_exit (m : Maze) : Maze :=
  updateCell (updateCell m 0 0 fun c => { c with has_top_wall := false })
    (m.num_rows - 1) (m.num_cols - 1) fun c => { c with has_bottom_wall := false }

/-- The wall-pair clearing of `_break_walls_r`: the four-way comparison of
the chosen neighbour `(ni,nj)` against the current cell `(i,j)`. -/
def breakWallsBetween (m : Maze) (i j ni nj : Nat) : Maze :=
  if j < nj then
    updateCell (updateCell m i j fun c => { c with has_right_wall := false })
      ni nj fun c => { c with has_left_wall := false }
  else if nj < j then
    updateCell (updateCell m i j fun c => { c with has_left_wall := false })
      ni nj fun c => { c with has_right_wall := false }
  else if i < ni then
    updateCell (updateCell m i j fun c => { c with has_bottom_wall := false })
      ni nj fun c => { c with has_top_wall := false }
  else if ni < i then
    updateCell (updateCell m i j fun c => { c with has_top_wall := false })
      ni nj fun c => { c with has_bottom_wall := false }
  else m

/-- The candidate list `to_visit` of `_break_walls_r`: the four axis
neighbours in source order (up, down, left, right), kept when in bounds
and unvisited. -/
def toVisit (m : Maze) (i j : Nat) : List (Nat × Nat) :=
  [((i : Int) - 1, (j : Int)), ((i : Int) + 1, (j : Int)),
   ((i : Int), (j : Int) - 1), ((i : Int), (j : Int) + 1)].filterMap
    fun t =>
      if t.1 < 0 ∨ t.2 < 0 then none
      else if (m.num_rows : Int) ≤ t.1 ∨ (m.num_cols : Int) ≤ t.2 then none
      else if (m.cells t.1.toNat t.2.toNat).visited then none
      else some (t.1.toNat, t.2.toNat)

/-- Generation state: the maze, the position in the random stream, and
traces of the broken wall-pairs and of the cells entered by
`_break_walls_r`, in chronological order. -/
structure GenState where
  maze : Maze
  k : Nat
  breaks : List ((Nat × Nat) × (Nat × Nat))
  entered : List (Nat × Nat)

/-- `random.choice l` at stream position `k`. -/
def pickChoice (rng : Nat → Nat) (k : Nat) (l : List (Nat × Nat)) : Nat × Nat :=
  l.getD (rng k % l.length) (0, 0)

/-- One iteration step of the `while` loop of `_break_walls_r` once the
neighbour `p` has been chosen: clear the wall pair between `(i,j)` and
`p`, then enter `p` (mark it visited and record it), advancing the
random stream. -/
def genStep (s : GenState) (i j : Nat) (p : Nat × Nat) : GenState :=
  { maze := setVisited (breakWallsBetween s.maze i j p.1 p.2) p.1 p.2,
    k := s.k + 1, breaks := s.breaks ++ [((i, j), p)], entered := s.entered ++ [p] }

/-- The `while True` loop of `_break_walls_r(i,j)`, entered after
`(i,j)` has been marked visited.  Each iteration recomputes `to_visit`;
if empty the cell is drawn (no grid effect) and the call returns,
otherwise a random candidate is chosen, the wall pair between the cells
is cleared, and `_break_walls_r` recurses into the chosen neighbour
(embedded inline: mark it visited, record it, run its loop) before the
loop re-enters.  `fuel` bounds the recursion depth; it only decreases,
and the sufficiency theorems below show it never reaches the cut-off. -/
def breakWallsLoop (rng : Nat → Nat) : Nat → GenState → Nat → Nat → GenState
  | fuel, s, i, j =>
    match toVisit s.maze i j, fuel with
    | [], _ => s
    | _ :: _, 0 => s
    | t :: ts, fuel + 1 =>
      let p := pickChoice rng s.k (t :: ts)
      let s2 := breakWallsLoop rng fuel (genStep s i j p) p.1 p.2
      breakWallsLoop rng fuel s2 i j

/-- `_break_walls_r(i,j)` from the top: mark the cell visited, record it,
run the loop. -/
def break_walls_r (rng : Nat → Nat) (fuel : Nat) (s : GenState) (i j : Nat) : GenState :=
  breakWallsLoop rng fuel
    { s with maze := setVisited s.maze i j, entered := s.entered ++ [(i, j)] } i j

/-- Fuel that the sufficiency theorems show is never exhausted. -/
def genFuel (R C : Nat) : Nat := 2 * (R * C) + 1

/-- `_reset_cells_visited`: clear the visited flag of every in-grid cell. -/
def reset_cells_visited (m : Maze) : Maze :=
  { m with cells := fun i j =>
      if i < m.num_rows ∧ j < m.num_cols then { m.cells i j with visited := false }
      else m.cells i j }

/-- `_create_cells`, the whole construction run by `__post_init__`: lay
out the grid, open entrance and exit, carve with `_break_walls_r(0,0)`,
reset the visited flags. -/
def create_cells (rng : Nat → Nat) (x1 y1 : Int) (R C : Nat) (csx csy : Int)
    (seed : Option Nat) : GenState :=
  let g := break_walls_r rng (genFuel R C)
    { maze := break_entrance_and_exit (createCells x1 y1 R C csx csy seed),
      k := 0, breaks := [], entered := [] } 0 0
  { g with maze := reset_cells_visited g.maze }

/-- Generation with default geometry (the geometry fields never influence
walls or visited flags). -/
def genMaze (rng : Nat → Nat) (R C : Nat) (seed : Option Nat) : GenState :=
  create_cells rng 0 0 R C 10 10 seed

/-- Solver state: the maze plus the chronological trace of cells entered
by `solve_r`. -/
structure SolveState where
  maze : Maze
  entered : List (Nat × Nat)

/-- The `for` loop over the neighbour tuples of `solve_r`: each entry is
`(test_i, test_j, wall)` with the wall flag of the current cell facing the
neighbour (captured when the tuple was built).  Out-of-bounds, visited,
or walled-off neighbours are skipped; otherwise the solver recurses via
`recur`; success propagates immediately, failure moves on (after the
cosmetic undo draw, which has no grid effect). -/
def tryMoves (recur : SolveState → Nat → Nat → SolveState × Bool) (s : SolveState) :
    List (Int × Int × Bool) → SolveState × Bool
  | [] => (s, false)
  | (ti, tj, wall) :: rest =>
    if ti < 0 ∨ tj < 0 then tryMoves recur s rest
    else if (s.maze.num_rows : Int) ≤ ti ∨ (s.maze.num_cols : Int) ≤ tj then
      tryMoves recur s rest
    else if (s.maze.cells ti.toNat tj.toNat).visited then tryMoves recur s rest
    else if wall then tryMoves recur s rest
    else
      let r := recur s ti.toNat tj.toNat
      if r.2 then (r.1, true) else tryMoves recur r.1 rest

/-- `solve_r(i,j)`: mark the cell visited (recorded in the trace), return
true at the target cell, otherwise try the four neighbours in source
order (up, down, left, right) with the current cell's wall flags read
after marking.  `fuel` bounds the recursion depth. -/
def solve_r : Nat → SolveState → Nat → Nat → SolveState × Bool
  | 0, s, _, _ => (s, false)
  | fuel + 1, s, i, j =>
    let m1 := setVisited s.maze i j
    let s1 : SolveState := { maze := m1, entered := s.entered ++ [(i, j)] }
    if i = m1.num_rows - 1 ∧ j = m1.num_cols - 1 then (s1, true)
    else
      let c := m1.cells i j
      tryMoves (solve_r fuel) s1
        [((i : Int) - 1, (j : Int), c.has_top_wall),
         ((i : Int) + 1, (j : Int), c.has_bottom_wall),
         ((i : Int), (j : Int) - 1, c.has_left_wall),
         ((i : Int), (j : Int) + 1, c.has_right_wall)]

/-- `solve()`: run `solve_r(0,0)` with fuel `num_rows * num_cols`. -/
def solve (m : Maze) : SolveState × Bool :=
  solve_r (m.num_rows * m.num_cols) { maze := m, entered := [] } 0 0

/-! Predicates used by the specification claims. -/

/-- Membership of a coordinate pair in the grid. -/
def inGrid (m : Maze) (p : Nat × Nat) : Prop :=
  p.1 < m.num_rows ∧ p.2 < m.num_cols

/-- The wall pair between two adjacent in-grid cells is fully open (both
facing flags cleared). -/
def adjOpen (m : Maze) (p q : Nat × Nat) : Prop :=
  inGrid m p ∧ inGrid m q ∧
  ((q.1 = p.1 ∧ q.2 = p.2 + 1 ∧ (m.cells p.1 p.2).has_right_wall = false ∧
      (m.cells q.1 q.2).has_left_wall = false) ∨
   (q.1 = p.1 ∧ p.2 = q.2 + 1 ∧ (m.cells p.1 p.2).has_left_wall = false ∧
      (m.cells q.1 q.2).has_right_wall = false) ∨
   (q.2 = p.2 ∧ q.1 = p.1 + 1 ∧ (m.cells p.1 p.2).has_bottom_wall = false ∧
      (m.cells q.1 q.2).has_top_wall = false) ∨
   (q.2 = p.2 ∧ p.1 = q.1 + 1 ∧ (m.cells p.1 p.2).has_top_wall = false ∧
      (m.cells q.1 q.2).has_bottom_wall = false))

/-- Flood-fill reachability along open adjacencies. -/
def ReachOpen (m : Maze) : (Nat × Nat) → (Nat × Nat) → Prop :=
  Relation.ReflTransGen (adjOpen m)

/-- The index set of the grid. -/
def gridPoints (R C : Nat) : Finset (Nat × Nat) :=
  Finset.range R ×ˢ Finset.range C

/-- The horizontal wall pair to the right of `(i,j)` is interior and open. -/
def hOpen (m : Maze) (i j : Nat) : Bool :=
  decide (j + 1 < m.num_cols) && !(m.cells i j).has_right_wall &&
    !(m.cells i (j + 1)).has_left_wall

/-- The vertical wall pair below `(i,j)` is interior and open. -/
def vOpen (m : Maze) (i j : Nat) : Bool :=
  decide (i + 1 < m.num_rows) && !(m.cells i j).has_bottom_wall &&
    !(m.cells (i + 1) j).has_top_wall

/-- Number of open interior wall-pairs. -/
def brokenPairs (m : Maze) : Nat :=
  ((gridPoints m.num_rows m.num_cols).filter fun p => hOpen m p.1 p.2).card +
    ((gridPoints m.num_rows m.num_cols).filter fun p => vOpen m p.1 p.2).card

/-- Number of visited in-grid cells. -/
def visitedCount (m : Maze) : Nat :=
  ((gridPoints m.num_rows m.num_cols).filter fun p => (m.cells p.1 p.2).visited).card

/-- Number of unvisited in-grid cells. -/
def unvisitedCount (m : Maze) : Nat :=
  ((gridPoints m.num_rows m.num_cols).filter fun p => !(m.cells p.1 p.2).visited).card

/-- The mirrored-walls invariant: for every interior adjacency the two
facing flags agree. -/
def Mirrored (m : Maze) : Prop :=
  (∀ i j, i < m.num_rows → j + 1 < m.num_cols →
    (m.cells i j).has_right_wall = (m.cells i (j + 1)).has_left_wall) ∧
  (∀ i j, i + 1 < m.num_rows → j < m.num_cols →
    (m.cells i j).has_bottom_wall = (m.cells (i + 1) j).has_top_wall)

/-- Two coordinate pairs name axis-adjacent grid squares. -/
def adjacentCell (p q : Nat × Nat) : Prop :=
  (q.1 = p.1 ∧ q.2 = p.2 + 1) ∨ (q.1 = p.1 ∧ p.2 = q.2 + 1) ∨
    (q.2 = p.2 ∧ q.1 = p.1 + 1) ∨ (q.2 = p.2 ∧ p.1 = q.1 + 1)

/-- The move `p → q` is one the solver would take if `q` were unvisited:
`q` is in the grid and the flag of `p` on the side facing `q` is clear.
Only `p`'s own flag is consulted, exactly as in `solve_r`. -/
def stepOpen (m : Maze) (p q : Nat × Nat) : Prop :=
  inGrid m q ∧
  ((q.1 = p.1 ∧ q.2 = p.2 + 1 ∧ (m.cells p.1 p.2).has_right_wall = false) ∨
   (q.1 = p.1 ∧ p.2 = q.2 + 1 ∧ (m.cells p.1 p.2).has_left_wall = false) ∨
   (q.2 = p.2 ∧ q.1 = p.1 + 1 ∧ (m.cells p.1 p.2).has_bottom_wall = false) ∨
   (q.2 = p.2 ∧ p.1 = q.1 + 1 ∧ (m.cells p.1 p.2).has_top_wall = false))

/-- Every open interior wall-pair joins two visited cells.  This holds at
every boundary between the recursive steps of generation and drives the
broken-pair count. -/
def OpenPairsVisited (m : Maze) : Prop :=
  (∀ i j, hOpen m i j = true → (m.cells i j).visited = true ∧
    (m.cells i (j + 1)).visited = true) ∧
  (∀ i j, vOpen m i j = true → (m.cells i j).visited = true ∧
    (m.cells (i + 1) j).visited = true)

/-- Mutation discipline of the generator between two grid states: the
dimensions and seed agree, wall flags only ever change from present to
absent, and visited flags only ever change from false to true. -/
def GenMono (m m' : Maze) : Prop :=
  m'.num_rows = m.num_rows ∧ m'.num_cols = m.num_cols ∧ m'.seed = m.seed ∧
  (∀ i j, ((m'.cells i j).has_left_wall = true → (m.cells i j).has_left_wall = true) ∧
    ((m'.cells i j).has_right_wall = true → (m.cells i j).has_right_wall = true) ∧
    ((m'.cells i j).has_top_wall = true → (m.cells i j).has_top_wall = true) ∧
    ((m'.cells i j).has_bottom_wall = true → (m.cells i j).has_bottom_wall = true)) ∧
  (∀ i j, (m.cells i j).visited = true → (m'.cells i j).visited = true)

/-- Mutation discipline of the solver between two grid states: the
dimensions, seed and every wall flag are unchanged, and visited flags
only ever change from false to true. -/
def SolveFrame (m m' : Maze) : Prop :=
  m'.num_rows = m.num_rows ∧ m'.num_cols = m.num_cols ∧ m'.seed = m.seed ∧
  (∀ i j, (m'.cells i j).has_left_wall = (m.cells i j).has_left_wall ∧
    (m'.cells i j).has_right_wall = (m.cells i j).has_right_wall ∧
    (m'.cells i j).has_top_wall = (m.cells i j).has_top_wall ∧
    (m'.cells i j).has_bottom_wall = (m.cells i j).has_bottom_wall) ∧
  (∀ i j, (m.cells i j).visited = true → (m'.cells i j).visited = true)

/-- The boundary walls other than the fixed entrance and exit: the top
flags of row `0`, the bottom flags of the last row, the left flags of
column `0` and the right flags of the last column are unchanged between
two grid states with the same dimensions. -/
def BoundaryEq (m m' : Maze) : Prop :=
  (∀ j, (m'.cells 0 j).has_top_wall = (m.cells 0 j).has_top_wall) ∧
  (∀ j, (m'.cells (m.num_rows - 1) j).has_bottom_wall =
    (m.cells (m.num_rows - 1) j).has_bottom_wall) ∧
  (∀ i, (m'.cells i 0).has_left_wall = (m.cells i 0).has_left_wall) ∧
  (∀ i, (m'.cells i (m.num_cols - 1)).has_right_wall =
    (m.cells i (m.num_cols - 1)).has_right_wall)

/-- `d` is the list of cells a traversal starting at `s` and ending at
`s'` has newly entered: the dimensions are unchanged, the entry trace
grew by exactly `d`, no cell of `d` is entered twice, visited flags only
get set, and `d` consists of in-grid cells that were unvisited in `s`
and are visited in `s'`. -/
def NewTrace (s s' : SolveState) (d : List (Nat × Nat)) : Prop :=
  s'.maze.num_rows = s.maze.num_rows ∧ s'.maze.num_cols = s.maze.num_cols ∧
  s'.entered = s.entered ++ d ∧ d.Nodup ∧
  (∀ a b, (s.maze.cells a b).visited = true → (s'.maze.cells a b).visited = true) ∧
  ∀ p ∈ d, inGrid s.maze p ∧ (s.maze.cells p.1 p.2).visited = false ∧
    (s'.maze.cells p.1 p.2).visited = true

/-! ## Basic access lemmas -/

@[simp] lemma updateCell_cells (m : Maze) (i j : Nat) (f : Cell → Cell) (a b : Nat) :
    (updateCell m i j f).cells a b =
      if a = i ∧ b = j then f (m.cells a b) else m.cells a b := rfl

@[simp] lemma updateCell_num_rows (m : Maze) (i j : Nat) (f : Cell → Cell) :
    (updateCell m i j f).num_rows = m.num_rows := rfl

@[simp] lemma updateCell_num_cols (m : Maze) (i j : Nat) (f : Cell → Cell) :
    (updateCell m i j f).num_cols = m.num_cols := rfl

@[simp] lemma updateCell_seed (m : Maze) (i j : Nat) (f : Cell → Cell) :
    (updateCell m i j f).seed = m.seed := rfl

@[simp] lemma setVisited_num_rows (m : Maze) (i j : Nat) :
    (setVisited m i j).num_rows = m.num_rows := rfl

@[simp] lemma setVisited_num_cols (m : Maze) (i j : Nat) :
    (setVisited m i j).num_cols = m.num_cols := rfl

@[simp] lemma setVisited_seed (m : Maze) (i j : Nat) :
    (setVisited m i j).seed = m.seed := rfl

lemma setVisited_visited (m : Maze) (i j a b : Nat) :
    ((setVisited m i j).cells a b).visited =
      if a = i ∧ b = j then true else (m.cells a b).visited := by
  simp only [setVisited, updateCell_cells]
  split <;> rfl

lemma setVisited_visited_self (m : Maze) (i j : Nat) :
    ((setVisited m i j).cells i j).visited = true := by
  simp [setVisited_visited]

lemma setVisited_visited_mono (m : Maze) (i j a b : Nat)
    (h : (m.cells a b).visited = true) :
    ((setVisited m i j).cells a b).visited = true := by
  rw [setVisited_visited]; split <;> simp [h]

lemma setVisited_walls (m : Maze) (i j a b : Nat) :
    ((setVisited m i j).cells a b).has_left_wall = (m.cells a b).has_left_wall ∧
    ((setVisited m i j).cells a b).has_right_wall = (m.cells a b).has_right_wall ∧
    ((setVisited m i j).cells a b).has_top_wall = (m.cells a b).has_top_wall ∧
    ((setVisited m i j).cells a b).has_bottom_wall = (m.cells a b).has_bottom_wall := by
  simp only [setVisited, updateCell_cells]
  split <;> simp

@[simp] lemma breakWallsBetween_num_rows (m : Maze) (i j ni nj : Nat) :
    (breakWallsBetween m i j ni nj).num_rows = m.num_rows := by
  unfold breakWallsBetween; split_ifs <;> rfl

@[simp] lemma breakWallsBetween_num_cols (m : Maze) (i j ni nj : Nat) :
    (breakWallsBetween m i j ni nj).num_cols = m.num_cols := by
  unfold breakWallsBetween; split_ifs <;> rfl

@[simp] lemma breakWallsBetween_seed (m : Maze) (i j ni nj : Nat) :
    (breakWallsBetween m i j ni nj).seed = m.seed := by
  unfold breakWallsBetween; split_ifs <;> rfl

lemma breakWallsBetween_visited (m : Maze) (i j ni nj a b : Nat) :
    ((breakWallsBetween m i j ni nj).cells a b).visited = (m.cells a b).visited := by
  unfold breakWallsBetween
  split_ifs <;>
    first
      | rfl
      | (simp only [updateCell_cells]; split <;> split <;> rfl)

lemma breakWallsBetween_walls_mono (m : Maze) (i j ni nj a b : Nat) :
    (((breakWallsBetween m i j ni nj).cells a b).has_left_wall = true →
      (m.cells a b).has_left_wall = true) ∧
    (((breakWallsBetween m i j ni nj).cells a b).has_right_wall = true →
      (m.cells a b).has_right_wall = true) ∧
    (((breakWallsBetween m i j ni nj).cells a b).has_top_wall = true →
      (m.cells a b).has_top_wall = true) ∧
    (((breakWallsBetween m i j ni nj).cells a b).has_bottom_wall = true →
      (m.cells a b).has_bottom_wall = true) := by
  unfold breakWallsBetween
  split_ifs <;>
    first
      | exact ⟨id, id, id, id⟩
      | (simp only [updateCell_cells]; split <;> split <;> simp)

/-! ## GenMono: the generator's mutation discipline -/

lemma genMono_refl (m : Maze) : GenMono m m := by
  refine ⟨rfl, rfl, rfl, fun i j => ?_, fun i j h => h⟩
  exact ⟨id, id, id, id⟩

lemma genMono_trans {m1 m2 m3 : Maze} (h12 : GenMono m1 m2) (h23 : GenMono m2 m3) :
    GenMono m1 m3 := by
  obtain ⟨hr12, hc12, hs12, hw12, hv12⟩ := h12
  obtain ⟨hr23, hc23, hs23, hw23, hv23⟩ := h23
  refine ⟨hr23.trans hr12, hc23.trans hc12, hs23.trans hs12, fun i j => ?_, fun i j h => ?_⟩
  · exact ⟨fun h => (hw12 i j).1 ((hw23 i j).1 h),
      fun h => (hw12 i j).2.1 ((hw23 i j).2.1 h),
      fun h => (hw12 i j).2.2.1 ((hw23 i j).2.2.1 h),
      fun h => (hw12 i j).2.2.2 ((hw23 i j).2.2.2 h)⟩
  · exact hv23 i j (hv12 i j h)

lemma genMono_setVisited (m : Maze) (i j : Nat) : GenMono m (setVisited m i j) := by
  refine ⟨rfl, rfl, rfl, fun a b => ?_, fun a b h => setVisited_visited_mono m i j a b h⟩
  obtain ⟨h1, h2, h3, h4⟩ := setVisited_walls m i j a b
  exact ⟨fun h => h1 ▸ h, fun h => h2 ▸ h, fun h => h3 ▸ h, fun h => h4 ▸ h⟩

lemma genMono_breakWallsBetween (m : Maze) (i j ni nj : Nat) :
    GenMono m (breakWallsBetween m i j ni nj) := by
  refine ⟨by simp, by simp, by simp, fun a b => breakWallsBetween_walls_mono m i j ni nj a b,
    fun a b h => ?_⟩
  rw [breakWallsBetween_visited]; exact h

lemma genMono_genStep (s : GenState) (i j : Nat) (p : Nat × Nat) :
    GenMono s.maze (genStep s i j p).maze :=
  genMono_trans (genMono_breakWallsBetween s.maze i j p.1 p.2)
    (genMono_setVisited _ p.1 p.2)

/-! ## Unfolding the generation loop -/

lemma breakWallsLoop_nil {s : GenState} {i j : Nat} (rng : Nat → Nat) (fuel : Nat)
    (h : toVisit s.maze i j = []) : breakWallsLoop rng fuel s i j = s :=
  breakWallsLoop.eq_1 rng s i j fuel h

lemma breakWallsLoop_zero (rng : Nat → Nat) (s : GenState) (i j : Nat) :
    breakWallsLoop rng 0 s i j = s := by
  cases h : toVisit s.maze i j with
  | nil => exact breakWallsLoop.eq_1 rng s i j 0 h
  | cons t ts => exact breakWallsLoop.eq_2 rng s i j t ts h

lemma breakWallsLoop_cons {s : GenState} {i j : Nat} {t : Nat × Nat}
    {ts : List (Nat × Nat)} (rng : Nat → Nat) (fuel : Nat)
    (h : toVisit s.maze i j = t :: ts) :
    breakWallsLoop rng (fuel + 1) s i j =
      breakWallsLoop rng fuel
        (breakWallsLoop rng fuel
          (genStep s i j (pickChoice rng s.k (t :: ts)))
          (pickChoice rng s.k (t :: ts)).1 (pickChoice rng s.k (t :: ts)).2) i j :=
  breakWallsLoop.eq_3 rng s i j t ts fuel h

lemma genMono_breakWallsLoop (rng : Nat → Nat) (fuel : Nat) :
    ∀ (s : GenState) (i j : Nat), GenMono s.maze (breakWallsLoop rng fuel s i j).maze := by
  induction fuel with
  | zero => intro s i j; rw [breakWallsLoop_zero]; exact genMono_refl _
  | succ fuel ih =>
    intro s i j
    cases h : toVisit s.maze i j with
    | nil => rw [breakWallsLoop_nil rng _ h]; exact genMono_refl _
    | cons t ts =>
      rw [breakWallsLoop_cons rng fuel h]
      exact genMono_trans (genMono_genStep s i j _)
        (genMono_trans (ih _ _ _) (ih _ _ _))

lemma genMono_break_walls_r (rng : Nat → Nat) (fuel : Nat) (s : GenState) (i j : Nat) :
    GenMono s.maze (break_walls_r rng fuel s i j).maze :=
  genMono_trans (genMono_setVisited s.maze i j) (genMono_breakWallsLoop rng fuel _ i j)

/-! ## The candidate list `to_visit` -/

lemma mem_toVisit {m : Maze} {i j : Nat} {p : Nat × Nat} (h : p ∈ toVisit m i j) :
    p.1 < m.num_rows ∧ p.2 < m.num_cols ∧ (m.cells p.1 p.2).visited = false ∧
      adjacentCell (i, j) p := by
  unfold toVisit at h
  simp only [List.mem_filterMap, List.mem_cons, List.not_mem_nil, or_false] at h
  obtain ⟨t, ht, he⟩ := h
  split_ifs at he with h1 h2 h3 <;> simp at he
  subst he
  rw [Bool.not_eq_true] at h3
  rcases ht with rfl | rfl | rfl | rfl <;>
    refine ⟨by omega, by omega, h3, ?_⟩ <;> unfold adjacentCell <;> omega

lemma toVisit_of {m : Maze} {i j : Nat} {p : Nat × Nat}
    (h1 : p.1 < m.num_rows) (h2 : p.2 < m.num_cols)
    (hv : (m.cells p.1 p.2).visited = false) (ha : adjacentCell (i, j) p) :
    p ∈ toVisit m i j := by
  unfold toVisit
  simp only [List.mem_filterMap, List.mem_cons, List.not_mem_nil, or_false]
  unfold adjacentCell at ha
  rcases ha with ⟨ha1, ha2⟩ | ⟨ha1, ha2⟩ | ⟨ha1, ha2⟩ | ⟨ha1, ha2⟩
  · -- p is the right neighbour: p = (i, j+1)
    refine ⟨((i : Int), (j : Int) + 1), by simp, ?_⟩
    rw [if_neg (by omega), if_neg (by omega), if_neg ?_]
    · congr 1; ext <;> simp <;> omega
    · rw [Bool.not_eq_true]
      have hc : ((i : Int).toNat, ((j : Int) + 1).toNat) = p := by ext <;> simp <;> omega
      rw [show ((i : Int)).toNat = p.1 by omega, show ((j : Int) + 1).toNat = p.2 by omega]
      exact hv
  · -- p is the left neighbour: p = (i, j-1) with j = p.2 + 1
    refine ⟨((i : Int), (j : Int) - 1), by simp, ?_⟩
    rw [if_neg (by omega), if_neg (by omega), if_neg ?_]
    · congr 1; ext <;> simp <;> omega
    · rw [Bool.not_eq_true]
      rw [show ((i : Int)).toNat = p.1 by omega, show ((j : Int) - 1).toNat = p.2 by omega]
      exact hv
  · -- p is the lower neighbour: p = (i+1, j)
    refine ⟨((i : Int) + 1, (j : Int)), by simp, ?_⟩
    rw [if_neg (by omega), if_neg (by omega), if_neg ?_]
    · congr 1; ext <;> simp <;> omega
    · rw [Bool.not_eq_true]
      rw [show ((i : Int) + 1).toNat = p.1 by omega, show ((j : Int)).toNat = p.2 by omega]
      exact hv
  · -- p is the upper neighbour: p = (i-1, j) with i = p.1 + 1
    refine ⟨((i : Int) - 1, (j : Int)), by simp, ?_⟩
    rw [if_neg (by omega), if_neg (by omega), if_neg ?_]
    · congr 1; ext <;> simp <;> omega
    · rw [Bool.not_eq_true]
      rw [show ((i : Int) - 1).toNat = p.1 by omega, show ((j : Int)).toNat = p.2 by omega]
      exact hv

lemma visited_of_toVisit_nil {m : Maze} {i j : Nat} (h : toVisit m i j = [])
    {p : Nat × Nat} (hg : inGrid m p) (ha : adjacentCell (i, j) p) :
    (m.cells p.1 p.2).visited = true := by
  by_contra hv
  rw [Bool.not_eq_true] at hv
  have hmem := toVisit_of hg.1 hg.2 hv ha
  rw [h] at hmem
  exact List.not_mem_nil _ hmem

lemma pickChoice_mem (rng : Nat → Nat) (k : Nat) {l : List (Nat × Nat)} (h : l ≠ []) :
    pickChoice rng k l ∈ l := by
  unfold pickChoice
  have hlen : 0 < l.length := List.length_pos.mpr h
  have hm : rng k % l.length < l.length := Nat.mod_lt _ hlen
  rw [List.getD_eq_getElem l (0, 0) hm]
  exact List.getElem_mem hm

/-! ## Dimension bookkeeping -/

@[simp] lemma break_entrance_num_rows (m : Maze) :
    (break_entrance_and_exit m).num_rows = m.num_rows := rfl

@[simp] lemma break_entrance_num_cols (m : Maze) :
    (break_entrance_and_exit m).num_cols = m.num_cols := rfl

@[simp] lemma genStep_maze_num_rows (s : GenState) (i j : Nat) (p : Nat × Nat) :
    (genStep s i j p).maze.num_rows = s.maze.num_rows := by
  simp [genStep]

@[simp] lemma genStep_maze_num_cols (s : GenState) (i j : Nat) (p : Nat × Nat) :
    (genStep s i j p).maze.num_cols = s.maze.num_cols := by
  simp [genStep]

lemma breakWallsLoop_num_rows (rng : Nat → Nat) (fuel : Nat) (s : GenState) (i j : Nat) :
    (breakWallsLoop rng fuel s i j).maze.num_rows = s.maze.num_rows :=
  (genMono_breakWallsLoop rng fuel s i j).1

lemma breakWallsLoop_num_cols (rng : Nat → Nat) (fuel : Nat) (s : GenState) (i j : Nat) :
    (breakWallsLoop rng fuel s i j).maze.num_cols = s.maze.num_cols :=
  (genMono_breakWallsLoop rng fuel s i j).2.1

/-! ## The mirrored-walls invariant -/

lemma mirrored_createCells (x1 y1 : Int) (R C : Nat) (csx csy : Int) (seed : Option Nat) :
    Mirrored (createCells x1 y1 R C csx csy seed) :=
  ⟨fun _ _ _ _ => rfl, fun _ _ _ _ => rfl⟩

lemma break_entrance_walls_lr (m : Maze) (a b : Nat) :
    ((break_entrance_and_exit m).cells a b).has_left_wall = (m.cells a b).has_left_wall ∧
    ((break_entrance_and_exit m).cells a b).has_right_wall = (m.cells a b).has_right_wall ∧
    ((break_entrance_and_exit m).cells a b).visited = (m.cells a b).visited := by
  simp only [break_entrance_and_exit, updateCell_cells, updateCell_num_rows,
    updateCell_num_cols]
  split <;> split <;> simp

lemma break_entrance_top (m : Maze) (a b : Nat) :
    ((break_entrance_and_exit m).cells a b).has_top_wall =
      if a = 0 ∧ b = 0 then false else (m.cells a b).has_top_wall := by
  simp only [break_entrance_and_exit, updateCell_cells, updateCell_num_rows,
    updateCell_num_cols]
  split <;> split <;> simp_all

lemma break_entrance_bottom (m : Maze) (a b : Nat) :
    ((break_entrance_and_exit m).cells a b).has_bottom_wall =
      if a = m.num_rows - 1 ∧ b = m.num_cols - 1 then false
      else (m.cells a b).has_bottom_wall := by
  simp only [break_entrance_and_exit, updateCell_cells, updateCell_num_rows,
    updateCell_num_cols]
  split <;> split <;> simp_all

lemma mirrored_break_entrance {m : Maze} (hm : Mirrored m) :
    Mirrored (break_entrance_and_exit m) := by
  obtain ⟨h1, h2⟩ := hm
  constructor
  · intro a b ha hb
    rw [(break_entrance_walls_lr m a b).2.1, (break_entrance_walls_lr m a (b + 1)).1]
    exact h1 a b ha hb
  · intro a b ha hb
    rw [break_entrance_num_rows] at ha
    rw [break_entrance_num_cols] at hb
    rw [break_entrance_bottom, break_entrance_top, if_neg (by omega), if_neg (by omega)]
    exact h2 a b ha hb

lemma mirrored_of_walls_eq {m m' : Maze} (hr : m'.num_rows = m.num_rows)
    (hc : m'.num_cols = m.num_cols)
    (hw : ∀ a b, (m'.cells a b).has_left_wall = (m.cells a b).has_left_wall ∧
      (m'.cells a b).has_right_wall = (m.cells a b).has_right_wall ∧
      (m'.cells a b).has_top_wall = (m.cells a b).has_top_wall ∧
      (m'.cells a b).has_bottom_wall = (m.cells a b).has_bottom_wall)
    (hm : Mirrored m) : Mirrored m' := by
  obtain ⟨h1, h2⟩ := hm
  constructor
  · intro a b ha hb
    rw [(hw a b).2.1, (hw a (b + 1)).1]
    exact h1 a b (hr ▸ ha) (hc ▸ hb)
  · intro a b ha hb
    rw [(hw a b).2.2.2, (hw (a + 1) b).2.2.1]
    exact h2 a b (hr ▸ ha) (hc ▸ hb)

lemma bwb_cells_right (m : Maze) (i j a b : Nat) :
    (((breakWallsBetween m i j i (j + 1)).cells a b).has_right_wall =
      if a = i ∧ b = j then false else (m.cells a b).has_right_wall) ∧
    (((breakWallsBetween m i j i (j + 1)).cells a b).has_left_wall =
      if a = i ∧ b = j + 1 then false else (m.cells a b).has_left_wall) ∧
    ((breakWallsBetween m i j i (j + 1)).cells a b).has_top_wall =
      (m.cells a b).has_top_wall ∧
    ((breakWallsBetween m i j i (j + 1)).cells a b).has_bottom_wall =
      (m.cells a b).has_bottom_wall := by
  rw [breakWallsBetween, if_pos (by omega)]
  simp only [updateCell_cells]
  refine ⟨?_, ?_, ?_, ?_⟩ <;> (split <;> split <;> simp_all)

lemma bwb_cells_left (m : Maze) (i j a b : Nat) :
    (((breakWallsBetween m i (j + 1) i j).cells a b).has_left_wall =
      if a = i ∧ b = j + 1 then false else (m.cells a b).has_left_wall) ∧
    (((breakWallsBetween m i (j + 1) i j).cells a b).has_right_wall =
      if a = i ∧ b = j then false else (m.cells a b).has_right_wall) ∧
    ((breakWallsBetween m i (j + 1) i j).cells a b).has_top_wall =
      (m.cells a b).has_top_wall ∧
    ((breakWallsBetween m i (j + 1) i j).cells a b).has_bottom_wall =
      (m.cells a b).has_bottom_wall := by
  rw [breakWallsBetween, if_neg (by omega), if_pos (by omega)]
  simp only [updateCell_cells]
  refine ⟨?_, ?_, ?_, ?_⟩ <;> (split <;> split <;> simp_all)

lemma bwb_cells_bottom (m : Maze) (i j a b : Nat) :
    (((breakWallsBetween m i j (i + 1) j).cells a b).has_bottom_wall =
      if a = i ∧ b = j then false else (m.cells a b).has_bottom_wall) ∧
    (((breakWallsBetween m i j (i + 1) j).cells a b).has_top_wall =
      if a = i + 1 ∧ b = j then false else (m.cells a b).has_top_wall) ∧
    ((breakWallsBetween m i j (i + 1) j).cells a b).has_left_wall =
      (m.cells a b).has_left_wall ∧
    ((breakWallsBetween m i j (i + 1) j).cells a b).has_right_wall =
      (m.cells a b).has_right_wall := by
  rw [breakWallsBetween, if_neg (by omega), if_neg (by omega), if_pos (by omega)]
  simp only [updateCell_cells]
  refine ⟨?_, ?_, ?_, ?_⟩ <;> (split <;> split <;> simp_all)

lemma bwb_cells_top (m : Maze) (i j a b : Nat) :
    (((breakWallsBetween m (i + 1) j i j).cells a b).has_top_wall =
      if a = i + 1 ∧ b = j then false else (m.cells a b).has_top_wall) ∧
    (((breakWallsBetween m (i + 1) j i j).cells a b).has_bottom_wall =
      if a = i ∧ b = j then false else (m.cells a b).has_bottom_wall) ∧
    ((breakWallsBetween m (i + 1) j i j).cells a b).has_left_wall =
      (m.cells a b).has_left_wall ∧
    ((breakWallsBetween m (i + 1) j i j).cells a b).has_right_wall =
      (m.cells a b).has_right_wall := by
  rw [breakWallsBetween, if_neg (by omega), if_neg (by omega), if_neg (by omega),
    if_pos (by omega)]
  simp only [updateCell_cells]
  refine ⟨?_, ?_, ?_, ?_⟩ <;> (split <;> split <;> simp_all)

lemma mirrored_breakWallsBetween {m : Maze} {i j : Nat} {p : Nat × Nat}
    (ha : adjacentCell (i, j) p) (hm : Mirrored m) :
    Mirrored (breakWallsBetween m i j p.1 p.2) := by
  obtain ⟨h1, h2⟩ := hm
  unfold adjacentCell at ha
  simp only at ha
  rcases ha with ⟨ha1, ha2⟩ | ⟨ha1, ha2⟩ | ⟨ha1, ha2⟩ | ⟨ha1, ha2⟩
  · -- p = (i, j+1): break right of (i,j), left of (i,j+1)
    rw [ha1, ha2]
    constructor
    · intro a b hra hcb
      rw [breakWallsBetween_num_rows] at hra
      rw [breakWallsBetween_num_cols] at hcb
      rw [(bwb_cells_right m i j a b).1, (bwb_cells_right m i j a (b + 1)).2.1]
      by_cases hab : a = i ∧ b = j
      · rw [if_pos hab, if_pos (by omega)]
      · rw [if_neg hab, if_neg (by omega)]
        exact h1 a b hra hcb
    · intro a b hra hcb
      rw [breakWallsBetween_num_rows] at hra
      rw [breakWallsBetween_num_cols] at hcb
      rw [(bwb_cells_right m i j a b).2.2.2, (bwb_cells_right m i j (a + 1) b).2.2.1]
      exact h2 a b hra hcb
  · -- p = (i, j-1) with j = p.2 + 1: break left of (i,j), right of (i,j-1)
    rw [ha1, ha2]
    constructor
    · intro a b hra hcb
      rw [breakWallsBetween_num_rows] at hra
      rw [breakWallsBetween_num_cols] at hcb
      rw [(bwb_cells_left m i p.2 a b).2.1, (bwb_cells_left m i p.2 a (b + 1)).1]
      by_cases hab : a = i ∧ b = p.2
      · rw [if_pos hab, if_pos (by omega)]
      · rw [if_neg hab, if_neg (by omega)]
        exact h1 a b hra hcb
    · intro a b hra hcb
      rw [breakWallsBetween_num_rows] at hra
      rw [breakWallsBetween_num_cols] at hcb
      rw [(bwb_cells_left m i p.2 a b).2.2.2, (bwb_cells_left m i p.2 (a + 1) b).2.2.1]
      exact h2 a b hra hcb
  · -- p = (i+1, j): break bottom of (i,j), top of (i+1,j)
    rw [ha1, ha2]
    constructor
    · intro a b hra hcb
      rw [breakWallsBetween_num_rows] at hra
      rw [breakWallsBetween_num_cols] at hcb
      rw [(bwb_cells_bottom m i j a b).2.2.2, (bwb_cells_bottom m i j a (b + 1)).2.2.1]
      exact h1 a b hra hcb
    · intro a b hra hcb
      rw [breakWallsBetween_num_rows] at hra
      rw [breakWallsBetween_num_cols] at hcb
      rw [(bwb_cells_bottom m i j a b).1, (bwb_cells_bottom m i j (a + 1) b).2.1]
      by_cases hab : a = i ∧ b = j
      · rw [if_pos hab, if_pos (by omega)]
      · rw [if_neg hab, if_neg (by omega)]
        exact h2 a b hra hcb
  · -- p = (i-1, j) with i = p.1 + 1: break top of (i,j), bottom of (i-1,j)
    rw [ha1, ha2]
    constructor
    · intro a b hra hcb
      rw [breakWallsBetween_num_rows] at hra
      rw [breakWallsBetween_num_cols] at hcb
      rw [(bwb_cells_top m p.1 j a b).2.2.2, (bwb_cells_top m p.1 j a (b + 1)).2.2.1]
      exact h1 a b hra hcb
    · intro a b hra hcb
      rw [breakWallsBetween_num_rows] at hra
      rw [breakWallsBetween_num_cols] at hcb
      rw [(bwb_cells_top m p.1 j a b).2.1, (bwb_cells_top m p.1 j (a + 1) b).1]
      by_cases hab : a = p.1 ∧ b = j
      · rw [if_pos hab, if_pos (by omega)]
      · rw [if_neg hab, if_neg (by omega)]
        exact h2 a b hra hcb

lemma mirrored_setVisited {m : Maze} (i j : Nat) (hm : Mirrored m) :
    Mirrored (setVisited m i j) :=
  @mirrored_of_walls_eq m (setVisited m i j) rfl rfl
    (fun a b => setVisited_walls m i j a b) hm

lemma mirrored_genStep {s : GenState} {i j : Nat} {p : Nat × Nat}
    (ha : adjacentCell (i, j) p) (hm : Mirrored s.maze) :
    Mirrored (genStep s i j p).maze :=
  mirrored_setVisited _ _ (mirrored_breakWallsBetween ha hm)

lemma mirrored_breakWallsLoop (rng : Nat → Nat) (fuel : Nat) :
    ∀ (s : GenState) (i j : Nat), Mirrored s.maze →
      Mirrored (breakWallsLoop rng fuel s i j).maze := by
  induction fuel with
  | zero => intro s i j hm; rw [breakWallsLoop_zero]; exact hm
  | succ fuel ih =>
    intro s i j hm
    cases h : toVisit s.maze i j with
    | nil => rw [breakWallsLoop_nil rng _ h]; exact hm
    | cons t ts =>
      rw [breakWallsLoop_cons rng fuel h]
      have hpm : pickChoice rng s.k (t :: ts) ∈ toVisit s.maze i j := by
        rw [h]; exact pickChoice_mem rng s.k (by simp)
      obtain ⟨hp1, hp2, _, hadj⟩ := mem_toVisit hpm
      exact ih _ _ _ (ih _ _ _ (mirrored_genStep hadj hm))

lemma mirrored_break_walls_r (rng : Nat → Nat) (fuel : Nat) (s : GenState) (i j : Nat)
    (hm : Mirrored s.maze) : Mirrored (break_walls_r rng fuel s i j).maze :=
  mirrored_breakWallsLoop rng fuel _ i j (mirrored_setVisited i j hm)

lemma mirrored_reset {m : Maze} (hm : Mirrored m) :
    Mirrored (reset_cells_visited m) := by
  refine @mirrored_of_walls_eq m (reset_cells_visited m) rfl rfl (fun a b => ?_) hm
  simp only [reset_cells_visited]
  split <;> simp

lemma mirrored_genMaze (rng : Nat → Nat) (R C : Nat) (seed : Option Nat) :
    Mirrored (genMaze rng R C seed).maze := by
  unfold genMaze create_cells break_walls_r
  exact mirrored_reset (mirrored_breakWallsLoop _ _ _ _ _
    (mirrored_setVisited _ _ (mirrored_break_entrance
      (mirrored_createCells 0 0 R C 10 10 seed))))

/-! ## Reset of the visited flags -/

lemma reset_cells_walls (m : Maze) (a b : Nat) :
    ((reset_cells_visited m).cells a b).has_left_wall = (m.cells a b).has_left_wall ∧
    ((reset_cells_visited m).cells a b).has_right_wall = (m.cells a b).has_right_wall ∧
    ((reset_cells_visited m).cells a b).has_top_wall = (m.cells a b).has_top_wall ∧
    ((reset_cells_visited m).cells a b).has_bottom_wall = (m.cells a b).has_bottom_wall ∧
    ((reset_cells_visited m).cells a b).top_x = (m.cells a b).top_x ∧
    ((reset_cells_visited m).cells a b).top_y = (m.cells a b).top_y ∧
    ((reset_cells_visited m).cells a b).bottom_x = (m.cells a b).bottom_x ∧
    ((reset_cells_visited m).cells a b).bottom_y = (m.cells a b).bottom_y := by
  simp only [reset_cells_visited]
  split <;> simp

lemma reset_cells_visited_eq (m : Maze) (a b : Nat) :
    ((reset_cells_visited m).cells a b).visited =
      if a < m.num_rows ∧ b < m.num_cols then false else (m.cells a b).visited := by
  simp only [reset_cells_visited]
  split <;> simp_all

@[simp] lemma reset_num_rows (m : Maze) :
    (reset_cells_visited m).num_rows = m.num_rows := rfl

@[simp] lemma reset_num_cols (m : Maze) :
    (reset_cells_visited m).num_cols = m.num_cols := rfl

lemma reset_idem (m : Maze) :
    reset_cells_visited (reset_cells_visited m) = reset_cells_visited m := by
  unfold reset_cells_visited
  dsimp only
  congr 1
  funext a b
  by_cases h : a < m.num_rows ∧ b < m.num_cols <;> simp [h]

/-! ## Boundary walls are preserved by carving -/

lemma boundaryEq_refl (m : Maze) : BoundaryEq m m :=
  ⟨fun _ => rfl, fun _ => rfl, fun _ => rfl, fun _ => rfl⟩

lemma boundaryEq_trans {m m1 m2 : Maze} (h1 : BoundaryEq m m1) (h2 : BoundaryEq m1 m2)
    (hr : m1.num_rows = m.num_rows) (hc : m1.num_cols = m.num_cols) :
    BoundaryEq m m2 := by
  obtain ⟨a1, b1, c1, d1⟩ := h1
  obtain ⟨a2, b2, c2, d2⟩ := h2
  refine ⟨fun j => ?_, fun j => ?_, fun i => ?_, fun i => ?_⟩
  · rw [a2 j, a1 j]
  · rw [hr] at b2; rw [b2 j, b1 j]
  · rw [c2 i, c1 i]
  · rw [hc] at d2; rw [d2 i, d1 i]

lemma boundaryEq_setVisited (m : Maze) (i j : Nat) : BoundaryEq m (setVisited m i j) :=
  ⟨fun b => (setVisited_walls m i j 0 b).2.2.1,
   fun b => (setVisited_walls m i j _ b).2.2.2,
   fun a => (setVisited_walls m i j a 0).1,
   fun a => (setVisited_walls m i j a _).2.1⟩

lemma boundaryEq_breakWallsBetween {m : Maze} {i j : Nat} {p : Nat × Nat}
    (hp1 : p.1 < m.num_rows) (hp2 : p.2 < m.num_cols)
    (hi : i < m.num_rows) (hj : j < m.num_cols)
    (ha : adjacentCell (i, j) p) :
    BoundaryEq m (breakWallsBetween m i j p.1 p.2) := by
  unfold adjacentCell at ha
  simp only at ha
  rcases ha with ⟨ha1, ha2⟩ | ⟨ha1, ha2⟩ | ⟨ha1, ha2⟩ | ⟨ha1, ha2⟩
  · -- p = (i, j+1): touches right(i,j) with j+1 < C and left(i,j+1)
    rw [ha1, ha2]
    rw [ha2] at hp2
    refine ⟨fun b => (bwb_cells_right m i j 0 b).2.2.1,
      fun b => (bwb_cells_right m i j _ b).2.2.2,
      fun a => ?_, fun a => ?_⟩
    · rw [(bwb_cells_right m i j a 0).2.1, if_neg (by omega)]
    · rw [(bwb_cells_right m i j a _).1, if_neg (by omega)]
  · -- p = (i, j-1): touches left(i,j) with j = p.2+1 and right(i,p.2)
    rw [ha1, ha2]
    rw [ha1] at hp1
    refine ⟨fun b => (bwb_cells_left m i p.2 0 b).2.2.1,
      fun b => (bwb_cells_left m i p.2 _ b).2.2.2,
      fun a => ?_, fun a => ?_⟩
    · rw [(bwb_cells_left m i p.2 a 0).1, if_neg (by omega)]
    · rw [(bwb_cells_left m i p.2 a _).2.1, if_neg (by omega)]
  · -- p = (i+1, j): touches bottom(i,j) with i+1 < R and top(i+1,j)
    rw [ha1, ha2]
    rw [ha2] at hp1
    refine ⟨fun b => ?_, fun b => ?_,
      fun a => (bwb_cells_bottom m i j a 0).2.2.1,
      fun a => (bwb_cells_bottom m i j a _).2.2.2⟩
    · rw [(bwb_cells_bottom m i j 0 b).2.1, if_neg (by omega)]
    · rw [(bwb_cells_bottom m i j _ b).1, if_neg (by omega)]
  · -- p = (i-1, j): touches top(i,j) with i = p.1+1 and bottom(p.1,j)
    rw [ha1, ha2]
    rw [ha1] at hp2
    rw [ha2] at hi
    refine ⟨fun b => ?_, fun b => ?_,
      fun a => (bwb_cells_top m p.1 j a 0).2.2.1,
      fun a => (bwb_cells_top m p.1 j a _).2.2.2⟩
    · rw [(bwb_cells_top m p.1 j 0 b).1, if_neg (by omega)]
    · rw [(bwb_cells_top m p.1 j _ b).2.1, if_neg (by omega)]

lemma boundaryEq_genStep {s : GenState} {i j : Nat} {p : Nat × Nat}
    (hp : p ∈ toVisit s.maze i j) (hi : i < s.maze.num_rows) (hj : j < s.maze.num_cols) :
    BoundaryEq s.maze (genStep s i j p).maze := by
  obtain ⟨hp1, hp2, _, hadj⟩ := mem_toVisit hp
  refine boundaryEq_trans (boundaryEq_breakWallsBetween hp1 hp2 hi hj hadj)
    ?_ (by simp) (by simp)
  have := boundaryEq_setVisited (breakWallsBetween s.maze i j p.1 p.2) p.1 p.2
  simpa using this

lemma boundaryEq_breakWallsLoop (rng : Nat → Nat) (fuel : Nat) :
    ∀ (s : GenState) (i j : Nat), i < s.maze.num_rows → j < s.maze.num_cols →
      BoundaryEq s.maze (breakWallsLoop rng fuel s i j).maze := by
  induction fuel with
  | zero => intro s i j _ _; rw [breakWallsLoop_zero]; exact boundaryEq_refl _
  | succ fuel ih =>
    intro s i j hi hj
    cases h : toVisit s.maze i j with
    | nil => rw [breakWallsLoop_nil rng _ h]; exact boundaryEq_refl _
    | cons t ts =>
      rw [breakWallsLoop_cons rng fuel h]
      have hpm : pickChoice rng s.k (t :: ts) ∈ toVisit s.maze i j := by
        rw [h]; exact pickChoice_mem rng s.k (by simp)
      obtain ⟨hp1, hp2, _, _⟩ := mem_toVisit hpm
      have e1 := boundaryEq_genStep hpm hi hj
      set s1 := genStep s i j (pickChoice rng s.k (t :: ts)) with hs1
      have e2 := ih s1 _ _ (by rw [hs1]; simpa using hp1) (by rw [hs1]; simpa using hp2)
      set s2 := breakWallsLoop rng fuel s1 (pickChoice rng s.k (t :: ts)).1
        (pickChoice rng s.k (t :: ts)).2 with hs2
      have hr2 : s2.maze.num_rows = s.maze.num_rows := by
        rw [breakWallsLoop_num_rows]; simp [hs1]
      have hc2 : s2.maze.num_cols = s.maze.num_cols := by
        rw [breakWallsLoop_num_cols]; simp [hs1]
      have e3 := ih s2 i j (by rw [hr2]; exact hi) (by rw [hc2]; exact hj)
      refine boundaryEq_trans (boundaryEq_trans e1 e2 (by simp [hs1]) (by simp [hs1]))
        e3 hr2 hc2

lemma boundaryEq_break_walls_r (rng : Nat → Nat) (fuel : Nat) (s : GenState) (i j : Nat)
    (hi : i < s.maze.num_rows) (hj : j < s.maze.num_cols) :
    BoundaryEq s.maze (break_walls_r rng fuel s i j).maze := by
  unfold break_walls_r
  refine boundaryEq_trans (boundaryEq_setVisited s.maze i j)
    (boundaryEq_breakWallsLoop rng fuel _ i j hi hj) rfl rfl

/-! ## Counting helpers -/

lemma mem_gridPoints {R C : Nat} {p : Nat × Nat} :
    p ∈ gridPoints R C ↔ p.1 < R ∧ p.2 < C := by
  simp [gridPoints, Finset.mem_product]

lemma card_filter_flip {α : Type} [DecidableEq α] (s : Finset α) (f g : α → Bool) (a : α)
    (ha : a ∈ s) (hfa : f a = false) (hga : g a = true)
    (hoth : ∀ x ∈ s, x ≠ a → g x = f x) :
    (s.filter fun x => g x = true).card = (s.filter fun x => f x = true).card + 1 := by
  have hins : s.filter (fun x => g x = true) = insert a (s.filter fun x => f x = true) := by
    ext x
    simp only [Finset.mem_filter, Finset.mem_insert]
    constructor
    · rintro ⟨hx, hgx⟩
      by_cases hxa : x = a
      · exact Or.inl hxa
      · exact Or.inr ⟨hx, by rw [← hoth x hx hxa]; exact hgx⟩
    · rintro (rfl | ⟨hx, hfx⟩)
      · exact ⟨ha, hga⟩
      · refine ⟨hx, ?_⟩
        by_cases hxa : x = a
        · subst hxa; rw [hfa] at hfx; cases hfx
        · rw [hoth x hx hxa]; exact hfx
  rw [hins, Finset.card_insert_of_not_mem]
  simp [hfa]

lemma card_filter_congrB {α : Type} (s : Finset α) (f g : α → Bool)
    (h : ∀ x ∈ s, g x = f x) :
    (s.filter fun x => g x = true).card = (s.filter fun x => f x = true).card := by
  congr 1
  exact Finset.filter_congr fun x hx => by rw [h x hx]

lemma card_filter_leB {α : Type} (s : Finset α) (f g : α → Bool)
    (h : ∀ x ∈ s, f x = true → g x = true) :
    (s.filter fun x => f x = true).card ≤ (s.filter fun x => g x = true).card := by
  apply Finset.card_le_card
  intro x hx
  rw [Finset.mem_filter] at hx ⊢
  exact ⟨hx.1, h x hx.1 hx.2⟩

/-! ## How one wall-pair break changes `hOpen`, `vOpen` -/

lemma hOpen_break_right (m : Maze) (i j a b : Nat) :
    hOpen (breakWallsBetween m i j i (j + 1)) a b =
      if a = i ∧ b = j then decide (j + 1 < m.num_cols) else hOpen m a b := by
  unfold hOpen
  rw [breakWallsBetween_num_cols, (bwb_cells_right m i j a b).1,
    (bwb_cells_right m i j a (b + 1)).2.1]
  by_cases h : a = i ∧ b = j
  · rw [if_pos h, if_pos (by omega), if_pos h]
    obtain ⟨rfl, rfl⟩ := h
    simp
  · rw [if_neg h, if_neg (by omega), if_neg h]

lemma vOpen_break_right (m : Maze) (i j a b : Nat) :
    vOpen (breakWallsBetween m i j i (j + 1)) a b = vOpen m a b := by
  unfold vOpen
  rw [breakWallsBetween_num_rows, (bwb_cells_right m i j a b).2.2.2,
    (bwb_cells_right m i j (a + 1) b).2.2.1]

lemma hOpen_break_left (m : Maze) (i j a b : Nat) :
    hOpen (breakWallsBetween m i (j + 1) i j) a b =
      if a = i ∧ b = j then decide (j + 1 < m.num_cols) else hOpen m a b := by
  unfold hOpen
  rw [breakWallsBetween_num_cols, (bwb_cells_left m i j a b).2.1,
    (bwb_cells_left m i j a (b + 1)).1]
  by_cases h : a = i ∧ b = j
  · rw [if_pos h, if_pos (by omega), if_pos h]
    obtain ⟨rfl, rfl⟩ := h
    simp
  · rw [if_neg h, if_neg (by omega), if_neg h]

lemma vOpen_break_left (m : Maze) (i j a b : Nat) :
    vOpen (breakWallsBetween m i (j + 1) i j) a b = vOpen m a b := by
  unfold vOpen
  rw [breakWallsBetween_num_rows, (bwb_cells_left m i j a b).2.2.2,
    (bwb_cells_left m i j (a + 1) b).2.2.1]

lemma vOpen_break_bottom (m : Maze) (i j a b : Nat) :
    vOpen (breakWallsBetween m i j (i + 1) j) a b =
      if a = i ∧ b = j then decide (i + 1 < m.num_rows) else vOpen m a b := by
  unfold vOpen
  rw [breakWallsBetween_num_rows, (bwb_cells_bottom m i j a b).1,
    (bwb_cells_bottom m i j (a + 1) b).2.1]
  by_cases h : a = i ∧ b = j
  · rw [if_pos h, if_pos (by omega), if_pos h]
    obtain ⟨rfl, rfl⟩ := h
    simp
  · rw [if_neg h, if_neg (by omega), if_neg h]

lemma hOpen_break_bottom (m : Maze) (i j a b : Nat) :
    hOpen (breakWallsBetween m i j (i + 1) j) a b = hOpen m a b := by
  unfold hOpen
  rw [breakWallsBetween_num_cols, (bwb_cells_bottom m i j a b).2.2.2,
    (bwb_cells_bottom m i j a (b + 1)).2.2.1]

lemma vOpen_break_top (m : Maze) (i j a b : Nat) :
    vOpen (breakWallsBetween m (i + 1) j i j) a b =
      if a = i ∧ b = j then decide (i + 1 < m.num_rows) else vOpen m a b := by
  unfold vOpen
  rw [breakWallsBetween_num_rows, (bwb_cells_top m i j a b).2.1,
    (bwb_cells_top m i j (a + 1) b).1]
  by_cases h : a = i ∧ b = j
  · rw [if_pos h, if_pos (by omega), if_pos h]
    obtain ⟨rfl, rfl⟩ := h
    simp
  · rw [if_neg h, if_neg (by omega), if_neg h]

lemma hOpen_break_top (m : Maze) (i j a b : Nat) :
    hOpen (breakWallsBetween m (i + 1) j i j) a b = hOpen m a b := by
  unfold hOpen
  rw [breakWallsBetween_num_cols, (bwb_cells_top m i j a b).2.2.2,
    (bwb_cells_top m i j a (b + 1)).2.2.1]

/-! ## Broken-pair counting across one carve step -/

lemma hOpen_setVisited (m : Maze) (u v a b : Nat) :
    hOpen (setVisited m u v) a b = hOpen m a b := by
  unfold hOpen
  rw [setVisited_num_cols, (setVisited_walls m u v a b).2.1,
    (setVisited_walls m u v a (b + 1)).1]

lemma vOpen_setVisited (m : Maze) (u v a b : Nat) :
    vOpen (setVisited m u v) a b = vOpen m a b := by
  unfold vOpen
  rw [setVisited_num_rows, (setVisited_walls m u v a b).2.2.2,
    (setVisited_walls m u v (a + 1) b).2.2.1]

lemma break_mark_visited (m : Maze) (i j : Nat) (p : Nat × Nat) (a b : Nat) :
    ((setVisited (breakWallsBetween m i j p.1 p.2) p.1 p.2).cells a b).visited =
      if a = p.1 ∧ b = p.2 then true else (m.cells a b).visited := by
  rw [setVisited_visited, breakWallsBetween_visited]

lemma brokenPairs_break {m : Maze} {i j : Nat} {p : Nat × Nat}
    (hadj : adjacentCell (i, j) p) (hp1 : p.1 < m.num_rows) (hp2 : p.2 < m.num_cols)
    (hi : i < m.num_rows) (hj : j < m.num_cols)
    (hvp : (m.cells p.1 p.2).visited = false) (hopv : OpenPairsVisited m) :
    brokenPairs (breakWallsBetween m i j p.1 p.2) = brokenPairs m + 1 := by
  unfold adjacentCell at hadj
  simp only at hadj
  rcases hadj with ⟨ha1, ha2⟩ | ⟨ha1, ha2⟩ | ⟨ha1, ha2⟩ | ⟨ha1, ha2⟩
  · -- right: the pair at (i,j) opens, vertical pairs unchanged
    rw [ha1] at hvp
    rw [ha2] at hvp hp2
    rw [ha1, ha2]
    unfold brokenPairs
    rw [breakWallsBetween_num_rows, breakWallsBetween_num_cols]
    have hH := card_filter_flip (gridPoints m.num_rows m.num_cols)
      (fun q => hOpen m q.1 q.2)
      (fun q => hOpen (breakWallsBetween m i j i (j + 1)) q.1 q.2) (i, j)
      (mem_gridPoints.mpr ⟨hi, hj⟩)
      (by
        by_contra hc
        rw [Bool.not_eq_false] at hc
        have hcv := (hopv.1 i j hc).2
        rw [hvp] at hcv
        cases hcv)
      (by dsimp only; rw [hOpen_break_right, if_pos ⟨rfl, rfl⟩]; simp [hp2])
      (fun x _ hxa => by
        dsimp only
        rw [hOpen_break_right, if_neg fun hc => hxa (by cases x; simp_all)])
    have hV := card_filter_congrB (gridPoints m.num_rows m.num_cols)
      (fun q => vOpen m q.1 q.2)
      (fun q => vOpen (breakWallsBetween m i j i (j + 1)) q.1 q.2)
      (fun x _ => by dsimp only; rw [vOpen_break_right])
    dsimp only at hH hV
    omega
  · -- left: pair at (i, p.2) opens, with j = p.2 + 1
    rw [ha1] at hvp
    rw [ha1, ha2]
    rw [ha2] at hj
    unfold brokenPairs
    rw [breakWallsBetween_num_rows, breakWallsBetween_num_cols]
    have hH := card_filter_flip (gridPoints m.num_rows m.num_cols)
      (fun q => hOpen m q.1 q.2)
      (fun q => hOpen (breakWallsBetween m i (p.2 + 1) i p.2) q.1 q.2) (i, p.2)
      (mem_gridPoints.mpr ⟨hi, hp2⟩)
      (by
        by_contra hc
        rw [Bool.not_eq_false] at hc
        have hcv := (hopv.1 i p.2 hc).1
        rw [hvp] at hcv
        cases hcv)
      (by dsimp only; rw [hOpen_break_left, if_pos ⟨rfl, rfl⟩]; simp [hj])
      (fun x _ hxa => by
        dsimp only
        rw [hOpen_break_left, if_neg fun hc => hxa (by cases x; simp_all)])
    have hV := card_filter_congrB (gridPoints m.num_rows m.num_cols)
      (fun q => vOpen m q.1 q.2)
      (fun q => vOpen (breakWallsBetween m i (p.2 + 1) i p.2) q.1 q.2)
      (fun x _ => by dsimp only; rw [vOpen_break_left])
    dsimp only at hH hV
    omega
  · -- down: the pair at (i,j) opens vertically
    rw [ha1] at hvp
    rw [ha2] at hvp hp1
    rw [ha1, ha2]
    unfold brokenPairs
    rw [breakWallsBetween_num_rows, breakWallsBetween_num_cols]
    have hV := card_filter_flip (gridPoints m.num_rows m.num_cols)
      (fun q => vOpen m q.1 q.2)
      (fun q => vOpen (breakWallsBetween m i j (i + 1) j) q.1 q.2) (i, j)
      (mem_gridPoints.mpr ⟨hi, hj⟩)
      (by
        by_contra hc
        rw [Bool.not_eq_false] at hc
        have hcv := (hopv.2 i j hc).2
        rw [hvp] at hcv
        cases hcv)
      (by dsimp only; rw [vOpen_break_bottom, if_pos ⟨rfl, rfl⟩]; simp [hp1])
      (fun x _ hxa => by
        dsimp only
        rw [vOpen_break_bottom, if_neg fun hc => hxa (by cases x; simp_all)])
    have hH := card_filter_congrB (gridPoints m.num_rows m.num_cols)
      (fun q => hOpen m q.1 q.2)
      (fun q => hOpen (breakWallsBetween m i j (i + 1) j) q.1 q.2)
      (fun x _ => by dsimp only; rw [hOpen_break_bottom])
    dsimp only at hH hV
    omega
  · -- up: pair at (p.1, j) opens vertically, with i = p.1 + 1
    rw [ha1] at hvp
    rw [ha1, ha2]
    rw [ha2] at hi
    unfold brokenPairs
    rw [breakWallsBetween_num_rows, breakWallsBetween_num_cols]
    have hV := card_filter_flip (gridPoints m.num_rows m.num_cols)
      (fun q => vOpen m q.1 q.2)
      (fun q => vOpen (breakWallsBetween m (p.1 + 1) j p.1 j) q.1 q.2) (p.1, j)
      (mem_gridPoints.mpr ⟨hp1, hj⟩)
      (by
        by_contra hc
        rw [Bool.not_eq_false] at hc
        have hcv := (hopv.2 p.1 j hc).1
        rw [hvp] at hcv
        cases hcv)
      (by dsimp only; rw [vOpen_break_top, if_pos ⟨rfl, rfl⟩]; simp [hi])
      (fun x _ hxa => by
        dsimp only
        rw [vOpen_break_top, if_neg fun hc => hxa (by cases x; simp_all)])
    have hH := card_filter_congrB (gridPoints m.num_rows m.num_cols)
      (fun q => hOpen m q.1 q.2)
      (fun q => hOpen (breakWallsBetween m (p.1 + 1) j p.1 j) q.1 q.2)
      (fun x _ => by dsimp only; rw [hOpen_break_top])
    dsimp only at hH hV
    omega

lemma opv_break_mark {m : Maze} {i j : Nat} {p : Nat × Nat}
    (hadj : adjacentCell (i, j) p) (hvij : (m.cells i j).visited = true)
    (hopv : OpenPairsVisited m) :
    OpenPairsVisited (setVisited (breakWallsBetween m i j p.1 p.2) p.1 p.2) := by
  unfold adjacentCell at hadj
  simp only at hadj
  constructor
  · intro a b hopen
    rw [hOpen_setVisited] at hopen
    rw [break_mark_visited, break_mark_visited]
    rcases hadj with ⟨ha1, ha2⟩ | ⟨ha1, ha2⟩ | ⟨ha1, ha2⟩ | ⟨ha1, ha2⟩
    · rw [ha1, ha2] at hopen ⊢
      rw [hOpen_break_right] at hopen
      by_cases hab : a = i ∧ b = j
      · obtain ⟨rfl, rfl⟩ := hab
        exact ⟨by rw [if_neg (by omega)]; exact hvij, by rw [if_pos ⟨rfl, rfl⟩]⟩
      · rw [if_neg hab] at hopen
        obtain ⟨v1, v2⟩ := hopv.1 a b hopen
        refine ⟨?_, ?_⟩ <;> split
        · rfl
        · exact v1
        · rfl
        · exact v2
    · rw [ha1] at hopen ⊢
      rw [ha2] at hopen hvij
      rw [hOpen_break_left] at hopen
      by_cases hab : a = i ∧ b = p.2
      · obtain ⟨rfl, rfl⟩ := hab
        exact ⟨by rw [if_pos ⟨rfl, rfl⟩], by rw [if_neg (by omega)]; exact hvij⟩
      · rw [if_neg hab] at hopen
        obtain ⟨v1, v2⟩ := hopv.1 a b hopen
        refine ⟨?_, ?_⟩ <;> split
        · rfl
        · exact v1
        · rfl
        · exact v2
    · rw [ha1, ha2] at hopen ⊢
      rw [hOpen_break_bottom] at hopen
      obtain ⟨v1, v2⟩ := hopv.1 a b hopen
      refine ⟨?_, ?_⟩ <;> split
      · rfl
      · exact v1
      · rfl
      · exact v2
    · rw [ha1] at hopen ⊢
      rw [ha2] at hopen hvij
      rw [hOpen_break_top] at hopen
      obtain ⟨v1, v2⟩ := hopv.1 a b hopen
      refine ⟨?_, ?_⟩ <;> split
      · rfl
      · exact v1
      · rfl
      · exact v2
  · intro a b hopen
    rw [vOpen_setVisited] at hopen
    rw [break_mark_visited, break_mark_visited]
    rcases hadj with ⟨ha1, ha2⟩ | ⟨ha1, ha2⟩ | ⟨ha1, ha2⟩ | ⟨ha1, ha2⟩
    · rw [ha1, ha2] at hopen ⊢
      rw [vOpen_break_right] at hopen
      obtain ⟨v1, v2⟩ := hopv.2 a b hopen
      refine ⟨?_, ?_⟩ <;> split
      · rfl
      · exact v1
      · rfl
      · exact v2
    · rw [ha1] at hopen ⊢
      rw [ha2] at hopen hvij
      rw [vOpen_break_left] at hopen
      obtain ⟨v1, v2⟩ := hopv.2 a b hopen
      refine ⟨?_, ?_⟩ <;> split
      · rfl
      · exact v1
      · rfl
      · exact v2
    · rw [ha1, ha2] at hopen ⊢
      rw [vOpen_break_bottom] at hopen
      by_cases hab : a = i ∧ b = j
      · obtain ⟨rfl, rfl⟩ := hab
        exact ⟨by rw [if_neg (by omega)]; exact hvij, by rw [if_pos ⟨rfl, rfl⟩]⟩
      · rw [if_neg hab] at hopen
        obtain ⟨v1, v2⟩ := hopv.2 a b hopen
        refine ⟨?_, ?_⟩ <;> split
        · rfl
        · exact v1
        · rfl
        · exact v2
    · rw [ha1] at hopen ⊢
      rw [ha2] at hopen hvij
      rw [vOpen_break_top] at hopen
      by_cases hab : a = p.1 ∧ b = j
      · obtain ⟨rfl, rfl⟩ := hab
        exact ⟨by rw [if_pos ⟨rfl, rfl⟩], by rw [if_neg (by omega)]; exact hvij⟩
      · rw [if_neg hab] at hopen
        obtain ⟨v1, v2⟩ := hopv.2 a b hopen
        refine ⟨?_, ?_⟩ <;> split
        · rfl
        · exact v1
        · rfl
        · exact v2

/-! ## Visited counts -/

lemma unvisitedCount_pos {m : Maze} {q : Nat × Nat} (hg : inGrid m q)
    (hv : (m.cells q.1 q.2).visited = false) : 1 ≤ unvisitedCount m := by
  unfold unvisitedCount
  rw [Nat.succ_le, Finset.card_pos]
  exact ⟨q, Finset.mem_filter.mpr ⟨mem_gridPoints.mpr ⟨hg.1, hg.2⟩, by simp [hv]⟩⟩

lemma unvisitedCount_le_of_genMono {m m' : Maze} (h : GenMono m m') :
    unvisitedCount m' ≤ unvisitedCount m := by
  unfold unvisitedCount
  rw [h.1, h.2.1]
  refine card_filter_leB _ _ _ fun x _ hx => ?_
  dsimp only at hx ⊢
  rw [Bool.not_eq_true'] at hx ⊢
  by_contra hc
  rw [Bool.not_eq_false] at hc
  have := h.2.2.2.2 x.1 x.2 hc
  rw [hx] at this
  cases this

lemma counts_mark {m m' : Maze} (hr : m'.num_rows = m.num_rows)
    (hc : m'.num_cols = m.num_cols) (u v : Nat) (hu : u < m.num_rows)
    (hv' : v < m.num_cols)
    (hvis : ∀ a b, (m'.cells a b).visited =
      if a = u ∧ b = v then true else (m.cells a b).visited)
    (hunv : (m.cells u v).visited = false) :
    unvisitedCount m = unvisitedCount m' + 1 ∧
      visitedCount m' = visitedCount m + 1 := by
  constructor
  · unfold unvisitedCount
    rw [hr, hc]
    have := card_filter_flip (gridPoints m.num_rows m.num_cols)
      (fun q => !(m'.cells q.1 q.2).visited) (fun q => !(m.cells q.1 q.2).visited)
      (u, v) (mem_gridPoints.mpr ⟨hu, hv'⟩)
      (by dsimp only; rw [hvis, if_pos ⟨rfl, rfl⟩]; rfl)
      (by dsimp only; rw [hunv]; rfl)
      (fun x _ hxa => by
        dsimp only
        rw [hvis, if_neg fun hcc => hxa (by cases x; simp_all)])
    dsimp only at this
    exact this
  · unfold visitedCount
    rw [hr, hc]
    have := card_filter_flip (gridPoints m.num_rows m.num_cols)
      (fun q => (m.cells q.1 q.2).visited) (fun q => (m'.cells q.1 q.2).visited)
      (u, v) (mem_gridPoints.mpr ⟨hu, hv'⟩) hunv
      (by dsimp only; rw [hvis, if_pos ⟨rfl, rfl⟩])
      (fun x _ hxa => by
        dsimp only
        rw [hvis, if_neg fun hcc => hxa (by cases x; simp_all)])
    dsimp only at this
    exact this

lemma brokenPairs_setVisited (m : Maze) (u v : Nat) :
    brokenPairs (setVisited m u v) = brokenPairs m := by
  unfold brokenPairs
  rw [setVisited_num_rows, setVisited_num_cols]
  have h1 := card_filter_congrB (gridPoints m.num_rows m.num_cols)
    (fun q => hOpen m q.1 q.2) (fun q => hOpen (setVisited m u v) q.1 q.2)
    (fun x _ => by dsimp only; rw [hOpen_setVisited])
  have h2 := card_filter_congrB (gridPoints m.num_rows m.num_cols)
    (fun q => vOpen m q.1 q.2) (fun q => vOpen (setVisited m u v) q.1 q.2)
    (fun x _ => by dsimp only; rw [vOpen_setVisited])
  dsimp only at h1 h2
  omega

lemma visitedCount_le (m : Maze) : visitedCount m ≤ m.num_rows * m.num_cols := by
  unfold visitedCount
  calc ((gridPoints m.num_rows m.num_cols).filter _).card
      ≤ (gridPoints m.num_rows m.num_cols).card := Finset.card_filter_le _ _
    _ = m.num_rows * m.num_cols := by simp [gridPoints]

lemma unvisitedCount_le (m : Maze) : unvisitedCount m ≤ m.num_rows * m.num_cols := by
  unfold unvisitedCount
  calc ((gridPoints m.num_rows m.num_cols).filter _).card
      ≤ (gridPoints m.num_rows m.num_cols).card := Finset.card_filter_le _ _
    _ = m.num_rows * m.num_cols := by simp [gridPoints]

lemma visitedCount_full {m : Maze}
    (h : ∀ p : Nat × Nat, inGrid m p → (m.cells p.1 p.2).visited = true) :
    visitedCount m = m.num_rows * m.num_cols := by
  unfold visitedCount
  rw [Finset.filter_true_of_mem fun x hx => h x ⟨(mem_gridPoints.mp hx).1,
    (mem_gridPoints.mp hx).2⟩]
  simp [gridPoints]

/-! ## Open adjacency is monotone along carving -/

lemma adjOpen_mono {m m' : Maze} (h : GenMono m m') {p q : Nat × Nat}
    (ha : adjOpen m p q) : adjOpen m' p q := by
  obtain ⟨hr, hc, _, hw, _⟩ := h
  obtain ⟨hgp, hgq, hd⟩ := ha
  have hfl : ∀ a b, (m.cells a b).has_left_wall = false →
      (m'.cells a b).has_left_wall = false := fun a b hf => by
    rw [← Bool.not_eq_true] at hf ⊢
    exact fun hcc => hf ((hw a b).1 hcc)
  have hfr : ∀ a b, (m.cells a b).has_right_wall = false →
      (m'.cells a b).has_right_wall = false := fun a b hf => by
    rw [← Bool.not_eq_true] at hf ⊢
    exact fun hcc => hf ((hw a b).2.1 hcc)
  have hft : ∀ a b, (m.cells a b).has_top_wall = false →
      (m'.cells a b).has_top_wall = false := fun a b hf => by
    rw [← Bool.not_eq_true] at hf ⊢
    exact fun hcc => hf ((hw a b).2.2.1 hcc)
  have hfb : ∀ a b, (m.cells a b).has_bottom_wall = false →
      (m'.cells a b).has_bottom_wall = false := fun a b hf => by
    rw [← Bool.not_eq_true] at hf ⊢
    exact fun hcc => hf ((hw a b).2.2.2 hcc)
  refine ⟨⟨hr ▸ hgp.1, hc ▸ hgp.2⟩, ⟨hr ▸ hgq.1, hc ▸ hgq.2⟩, ?_⟩
  rcases hd with ⟨e1, e2, f1, f2⟩ | ⟨e1, e2, f1, f2⟩ | ⟨e1, e2, f1, f2⟩ | ⟨e1, e2, f1, f2⟩
  · exact Or.inl ⟨e1, e2, hfr _ _ f1, hfl _ _ f2⟩
  · exact Or.inr (Or.inl ⟨e1, e2, hfl _ _ f1, hfr _ _ f2⟩)
  · exact Or.inr (Or.inr (Or.inl ⟨e1, e2, hfb _ _ f1, hft _ _ f2⟩))
  · exact Or.inr (Or.inr (Or.inr ⟨e1, e2, hft _ _ f1, hfb _ _ f2⟩))

lemma reachOpen_mono {m m' : Maze} (h : GenMono m m') {p q : Nat × Nat}
    (hr : ReachOpen m p q) : ReachOpen m' p q :=
  Relation.ReflTransGen.mono (fun _ _ ha => adjOpen_mono h ha) hr

lemma adjOpen_genStep {s : GenState} {i j : Nat} {p : Nat × Nat}
    (hadj : adjacentCell (i, j) p) (hi : i < s.maze.num_rows)
    (hj : j < s.maze.num_cols) (hp1 : p.1 < s.maze.num_rows)
    (hp2 : p.2 < s.maze.num_cols) :
    adjOpen (genStep s i j p).maze (i, j) p := by
  have hg1 : inGrid (genStep s i j p).maze (i, j) := by
    constructor <;> simp [genStep] <;> assumption
  have hg2 : inGrid (genStep s i j p).maze p := by
    constructor <;> simp [genStep] <;> assumption
  refine ⟨hg1, hg2, ?_⟩
  have hmz : (genStep s i j p).maze =
      setVisited (breakWallsBetween s.maze i j p.1 p.2) p.1 p.2 := rfl
  unfold adjacentCell at hadj
  simp only at hadj
  rcases hadj with ⟨ha1, ha2⟩ | ⟨ha1, ha2⟩ | ⟨ha1, ha2⟩ | ⟨ha1, ha2⟩
  · refine Or.inl ⟨ha1, ha2, ?_, ?_⟩
    · rw [hmz, ha1, ha2, (setVisited_walls _ _ _ _ _).2.1,
        (bwb_cells_right s.maze i j i j).1, if_pos ⟨rfl, rfl⟩]
    · rw [hmz, ha1, ha2, (setVisited_walls _ _ _ _ _).1,
        (bwb_cells_right s.maze i j i (j + 1)).2.1, if_pos ⟨rfl, rfl⟩]
  · refine Or.inr (Or.inl ⟨ha1, ha2, ?_, ?_⟩)
    · rw [hmz, ha1, ha2, (setVisited_walls _ _ _ _ _).1,
        (bwb_cells_left s.maze i p.2 i (p.2 + 1)).1, if_pos ⟨rfl, rfl⟩]
    · rw [hmz, ha1, ha2, (setVisited_walls _ _ _ _ _).2.1,
        (bwb_cells_left s.maze i p.2 i p.2).2.1, if_pos ⟨rfl, rfl⟩]
  · refine Or.inr (Or.inr (Or.inl ⟨ha1, ha2, ?_, ?_⟩))
    · rw [hmz, ha1, ha2, (setVisited_walls _ _ _ _ _).2.2.2,
        (bwb_cells_bottom s.maze i j i j).1, if_pos ⟨rfl, rfl⟩]
    · rw [hmz, ha1, ha2, (setVisited_walls _ _ _ _ _).2.2.1,
        (bwb_cells_bottom s.maze i j (i + 1) j).2.1, if_pos ⟨rfl, rfl⟩]
  · refine Or.inr (Or.inr (Or.inr ⟨ha1, ha2, ?_, ?_⟩))
    · rw [hmz, ha1, ha2, (setVisited_walls _ _ _ _ _).2.2.1,
        (bwb_cells_top s.maze p.1 j (p.1 + 1) j).1, if_pos ⟨rfl, rfl⟩]
    · rw [hmz, ha1, ha2, (setVisited_walls _ _ _ _ _).2.2.2,
        (bwb_cells_top s.maze p.1 j p.1 j).2.1, if_pos ⟨rfl, rfl⟩]

/-! ## The master invariant of the carving loop

For a call of the loop at a visited in-bounds cell with sufficient fuel:
the loop returns only when the cell has no unvisited neighbour left; every
cell it newly visits has all its neighbours visited on return and is
reachable from the call cell through open wall-pairs; the open-pairs-are-
visited invariant is preserved; and the number of open interior wall-pairs
grows by exactly the number of newly visited cells. -/

lemma breakWallsLoop_main (rng : Nat → Nat) (fuel : Nat) :
    ∀ (s : GenState) (i j : Nat),
      i < s.maze.num_rows → j < s.maze.num_cols →
      (s.maze.cells i j).visited = true →
      2 * unvisitedCount s.maze ≤ fuel →
      OpenPairsVisited s.maze →
      toVisit (breakWallsLoop rng fuel s i j).maze i j = [] ∧
      (∀ p : Nat × Nat, inGrid s.maze p →
        ((breakWallsLoop rng fuel s i j).maze.cells p.1 p.2).visited = true →
        (s.maze.cells p.1 p.2).visited = false →
        (∀ q : Nat × Nat, inGrid s.maze q → adjacentCell p q →
          ((breakWallsLoop rng fuel s i j).maze.cells q.1 q.2).visited = true) ∧
        ReachOpen (breakWallsLoop rng fuel s i j).maze (i, j) p) ∧
      OpenPairsVisited (breakWallsLoop rng fuel s i j).maze ∧
      brokenPairs (breakWallsLoop rng fuel s i j).maze + visitedCount s.maze =
        brokenPairs s.maze + visitedCount (breakWallsLoop rng fuel s i j).maze := by
  induction fuel with
  | zero =>
    intro s i j hi hj hv hfuel hopv
    rw [breakWallsLoop_zero]
    refine ⟨?_, ?_, hopv, rfl⟩
    · cases htv : toVisit s.maze i j with
      | nil => rfl
      | cons t ts =>
        exfalso
        have hm := mem_toVisit (htv ▸ List.mem_cons_self t ts)
        have := unvisitedCount_pos ⟨hm.1, hm.2.1⟩ hm.2.2.1
        omega
    · intro p _ hp1 hp2
      rw [hp1] at hp2
      cases hp2
  | succ fuel ih =>
    intro s i j hi hj hv hfuel hopv
    cases htv : toVisit s.maze i j with
    | nil =>
      rw [breakWallsLoop_nil rng _ htv]
      refine ⟨htv, ?_, hopv, rfl⟩
      intro p _ hp1 hp2
      rw [hp1] at hp2
      cases hp2
    | cons t ts =>
      rw [breakWallsLoop_cons rng fuel htv]
      set pk := pickChoice rng s.k (t :: ts) with hpk
      have hpmem : pk ∈ toVisit s.maze i j := by
        rw [htv]; exact pickChoice_mem rng s.k (by simp)
      obtain ⟨hpk1, hpk2, hpkv, hpkadj⟩ := mem_toVisit hpmem
      set s1 := genStep s i j pk with hs1
      have hs1rows : s1.maze.num_rows = s.maze.num_rows := by rw [hs1]; simp
      have hs1cols : s1.maze.num_cols = s.maze.num_cols := by rw [hs1]; simp
      have hs1vis : ∀ a b, (s1.maze.cells a b).visited =
          if a = pk.1 ∧ b = pk.2 then true else (s.maze.cells a b).visited := by
        intro a b; rw [hs1]; exact break_mark_visited s.maze i j pk a b
      have hcounts := counts_mark hs1rows hs1cols pk.1 pk.2 hpk1 hpk2 hs1vis hpkv
      have hupos : 1 ≤ unvisitedCount s.maze :=
        unvisitedCount_pos ⟨hpk1, hpk2⟩ hpkv
      have hbp1 : brokenPairs s1.maze = brokenPairs s.maze + 1 := by
        rw [hs1]
        show brokenPairs
          (setVisited (breakWallsBetween s.maze i j pk.1 pk.2) pk.1 pk.2) = _
        rw [brokenPairs_setVisited]
        exact brokenPairs_break hpkadj hpk1 hpk2 hi hj hpkv hopv
      have hopv1 : OpenPairsVisited s1.maze := by
        rw [hs1]; exact opv_break_mark hpkadj hv hopv
      have hstep1 : adjOpen s1.maze (i, j) pk := by
        rw [hs1]; exact adjOpen_genStep hpkadj hi hj hpk1 hpk2
      have hin := ih s1 pk.1 pk.2 (by rw [hs1rows]; exact hpk1)
        (by rw [hs1cols]; exact hpk2)
        (by rw [hs1vis, if_pos ⟨rfl, rfl⟩]) (by omega) hopv1
      set s2 := breakWallsLoop rng fuel s1 pk.1 pk.2 with hs2
      have hmono12 : GenMono s1.maze s2.maze :=
        genMono_breakWallsLoop rng fuel s1 pk.1 pk.2
      have hs2rows : s2.maze.num_rows = s.maze.num_rows := by
        rw [hmono12.1, hs1rows]
      have hs2cols : s2.maze.num_cols = s.maze.num_cols := by
        rw [hmono12.2.1, hs1cols]
      have hu2 : unvisitedCount s2.maze ≤ unvisitedCount s1.maze :=
        unvisitedCount_le_of_genMono hmono12
      have hvs2 : (s2.maze.cells i j).visited = true := by
        apply hmono12.2.2.2.2
        rw [hs1vis]
        split
        · rfl
        · exact hv
      have hct := ih s2 i j (by rw [hs2rows]; exact hi) (by rw [hs2cols]; exact hj)
        hvs2 (by omega) hin.2.2.1
      set s3 := breakWallsLoop rng fuel s2 i j with hs3
      have hmono23 : GenMono s2.maze s3.maze := genMono_breakWallsLoop rng fuel s2 i j
      have hmono13 : GenMono s1.maze s3.maze := genMono_trans hmono12 hmono23
      refine ⟨hct.1, ?_, hct.2.2.1, ?_⟩
      · intro p hgp hpv3 hpv0
        by_cases hvp2 : (s2.maze.cells p.1 p.2).visited = true
        · by_cases hvp1 : (s1.maze.cells p.1 p.2).visited = true
          · have hppk : p = pk := by
              rw [hs1vis] at hvp1
              by_cases hab : p.1 = pk.1 ∧ p.2 = pk.2
              · obtain ⟨pa, pb⟩ := p
                obtain ⟨ka, kb⟩ := pk
                simp_all
              · rw [if_neg hab] at hvp1
                rw [hpv0] at hvp1
                cases hvp1
            subst hppk
            constructor
            · intro q hgq hadjq
              have hq2 : (s2.maze.cells q.1 q.2).visited = true := by
                apply visited_of_toVisit_nil hin.1
                · exact ⟨by rw [hs2rows]; exact hgq.1, by rw [hs2cols]; exact hgq.2⟩
                · exact hadjq
              exact hmono23.2.2.2.2 q.1 q.2 hq2
            · exact Relation.ReflTransGen.single (adjOpen_mono hmono13 hstep1)
          · rw [Bool.not_eq_true] at hvp1
            have hinn := hin.2.1 p
              ⟨by rw [hs1rows]; exact hgp.1, by rw [hs1cols]; exact hgp.2⟩ hvp2 hvp1
            constructor
            · intro q hgq hadjq
              exact hmono23.2.2.2.2 q.1 q.2 (hinn.1 q
                ⟨by rw [hs1rows]; exact hgq.1, by rw [hs1cols]; exact hgq.2⟩ hadjq)
            · exact Relation.ReflTransGen.head (adjOpen_mono hmono13 hstep1)
                (reachOpen_mono hmono23 hinn.2)
        · rw [Bool.not_eq_true] at hvp2
          have hcont := hct.2.1 p
            ⟨by rw [hs2rows]; exact hgp.1, by rw [hs2cols]; exact hgp.2⟩ hpv3 hvp2
          exact ⟨fun q hgq hadjq => hcont.1 q
            ⟨by rw [hs2rows]; exact hgq.1, by rw [hs2cols]; exact hgq.2⟩ hadjq,
            hcont.2⟩
      · have e1 := hct.2.2.2
        have e2 := hin.2.2.2
        omega

/-! ## The freshly built grid -/

@[simp] lemma createCells_num_rows (x1 y1 : Int) (R C : Nat) (csx csy : Int)
    (seed : Option Nat) : (createCells x1 y1 R C csx csy seed).num_rows = R := rfl

@[simp] lemma createCells_num_cols (x1 y1 : Int) (R C : Nat) (csx csy : Int)
    (seed : Option Nat) : (createCells x1 y1 R C csx csy seed).num_cols = C := rfl

lemma init_visited (x1 y1 : Int) (R C : Nat) (csx csy : Int) (seed : Option Nat)
    (a b : Nat) :
    ((break_entrance_and_exit (createCells x1 y1 R C csx csy seed)).cells a b).visited
      = false := by
  rw [(break_entrance_walls_lr _ a b).2.2]
  rfl

lemma hOpen_init (x1 y1 : Int) (R C : Nat) (csx csy : Int) (seed : Option Nat)
    (a b : Nat) :
    hOpen (break_entrance_and_exit (createCells x1 y1 R C csx csy seed)) a b
      = false := by
  unfold hOpen
  rw [(break_entrance_walls_lr _ a b).2.1]
  simp [createCells, initCell]

lemma vOpen_init (x1 y1 : Int) (R C : Nat) (csx csy : Int) (seed : Option Nat)
    (a b : Nat) :
    vOpen (break_entrance_and_exit (createCells x1 y1 R C csx csy seed)) a b
      = false := by
  unfold vOpen
  rw [break_entrance_bottom, break_entrance_num_rows, createCells_num_rows,
    createCells_num_cols]
  by_cases h : a + 1 < R
  · rw [if_neg (by omega : ¬(a = R - 1 ∧ b = C - 1))]
    simp [createCells, initCell]
  · simp [h]

lemma brokenPairs_init (x1 y1 : Int) (R C : Nat) (csx csy : Int) (seed : Option Nat) :
    brokenPairs (break_entrance_and_exit (createCells x1 y1 R C csx csy seed)) = 0 := by
  unfold brokenPairs
  rw [Finset.filter_eq_empty_iff.mpr, Finset.filter_eq_empty_iff.mpr]
  · simp
  · intro x _
    rw [vOpen_init]
    simp
  · intro x _
    rw [hOpen_init]
    simp

lemma visitedCount_init (x1 y1 : Int) (R C : Nat) (csx csy : Int) (seed : Option Nat) :
    visitedCount (break_entrance_and_exit (createCells x1 y1 R C csx csy seed)) = 0 := by
  unfold visitedCount
  rw [Finset.filter_eq_empty_iff.mpr]
  · simp
  · intro x _
    rw [init_visited]
    simp

lemma unvisitedCount_init (x1 y1 : Int) (R C : Nat) (csx csy : Int)
    (seed : Option Nat) :
    unvisitedCount (break_entrance_and_exit (createCells x1 y1 R C csx csy seed))
      = R * C := by
  unfold unvisitedCount
  rw [Finset.filter_true_of_mem]
  · simp [gridPoints]
  · intro x _
    rw [init_visited]
    rfl

lemma opv_init_marked (x1 y1 : Int) (R C : Nat) (csx csy : Int) (seed : Option Nat) :
    OpenPairsVisited
      (setVisited (break_entrance_and_exit (createCells x1 y1 R C csx csy seed)) 0 0) := by
  constructor
  · intro a b h
    rw [hOpen_setVisited, hOpen_init] at h
    cases h
  · intro a b h
    rw [vOpen_setVisited, vOpen_init] at h
    cases h

/-! ## Generation from the origin: all cells visited, spanning count -/

lemma gen_root (rng : Nat → Nat) (x1 y1 : Int) (R C : Nat) (csx csy : Int)
    (seed : Option Nat) (hR : 1 ≤ R) (hC : 1 ≤ C) (g : GenState)
    (hg : g = break_walls_r rng (genFuel R C)
      ⟨break_entrance_and_exit (createCells x1 y1 R C csx csy seed), 0, [], []⟩ 0 0) :
    (∀ p : Nat × Nat, p.1 < R → p.2 < C →
      (g.maze.cells p.1 p.2).visited = true) ∧
    (∀ p : Nat × Nat, p.1 < R → p.2 < C → ReachOpen g.maze (0, 0) p) ∧
    brokenPairs g.maze = R * C - 1 ∧
    g.maze.num_rows = R ∧ g.maze.num_cols = C := by
  have hg' : g = breakWallsLoop rng (genFuel R C)
      ⟨setVisited (break_entrance_and_exit (createCells x1 y1 R C csx csy seed)) 0 0,
        0, [], [(0, 0)]⟩ 0 0 := hg
  subst hg'
  have hcnt := @counts_mark
    (break_entrance_and_exit (createCells x1 y1 R C csx csy seed))
    (setVisited (break_entrance_and_exit (createCells x1 y1 R C csx csy seed)) 0 0)
    rfl rfl 0 0 hR hC
    (fun a b => setVisited_visited _ 0 0 a b)
    (init_visited x1 y1 R C csx csy seed 0 0)
  have hu0 := unvisitedCount_init x1 y1 R C csx csy seed
  have hv0 := visitedCount_init x1 y1 R C csx csy seed
  have hmain := breakWallsLoop_main rng (genFuel R C)
    ⟨setVisited (break_entrance_and_exit (createCells x1 y1 R C csx csy seed)) 0 0,
      0, [], [(0, 0)]⟩ 0 0 hR hC
    (setVisited_visited_self _ 0 0)
    (by dsimp only; unfold genFuel; omega)
    (opv_init_marked x1 y1 R C csx csy seed)
  obtain ⟨htve, hnew, _, hcountf⟩ := hmain
  have hmono := genMono_breakWallsLoop rng (genFuel R C)
    ⟨setVisited (break_entrance_and_exit (createCells x1 y1 R C csx csy seed)) 0 0,
      0, [], [(0, 0)]⟩ 0 0
  have hGr : (breakWallsLoop rng (genFuel R C)
      ⟨setVisited (break_entrance_and_exit (createCells x1 y1 R C csx csy seed)) 0 0,
        0, [], [(0, 0)]⟩ 0 0).maze.num_rows = R := hmono.1
  have hGc : (breakWallsLoop rng (genFuel R C)
      ⟨setVisited (break_entrance_and_exit (createCells x1 y1 R C csx csy seed)) 0 0,
        0, [], [(0, 0)]⟩ 0 0).maze.num_cols = C := hmono.2.1
  -- the start state's visited cells: exactly (0,0)
  have hstart : ∀ p : Nat × Nat, ¬(p.1 = 0 ∧ p.2 = 0) →
      ((setVisited (break_entrance_and_exit (createCells x1 y1 R C csx csy seed))
        0 0).cells p.1 p.2).visited = false := by
    intro p hp0
    rw [setVisited_visited, if_neg hp0]
    exact init_visited x1 y1 R C csx csy seed p.1 p.2
  -- every visited cell of the result has all its neighbours visited
  have hclosed : ∀ p : Nat × Nat, p.1 < R → p.2 < C →
      ((breakWallsLoop rng (genFuel R C)
        ⟨setVisited (break_entrance_and_exit (createCells x1 y1 R C csx csy seed)) 0 0,
          0, [], [(0, 0)]⟩ 0 0).maze.cells p.1 p.2).visited = true →
      ∀ q : Nat × Nat, q.1 < R → q.2 < C → adjacentCell p q →
      ((breakWallsLoop rng (genFuel R C)
        ⟨setVisited (break_entrance_and_exit (createCells x1 y1 R C csx csy seed)) 0 0,
          0, [], [(0, 0)]⟩ 0 0).maze.cells q.1 q.2).visited = true := by
    intro p hp1 hp2 hpv q hq1 hq2 hadj
    by_cases hp0 : p.1 = 0 ∧ p.2 = 0
    · refine visited_of_toVisit_nil htve ⟨?_, ?_⟩ ?_
      · rw [hGr]; exact hq1
      · rw [hGc]; exact hq2
      · unfold adjacentCell at hadj ⊢
        rw [hp0.1, hp0.2] at hadj
        exact hadj
    · exact (hnew p ⟨hp1, hp2⟩ hpv (hstart p hp0)).1 q ⟨hq1, hq2⟩ hadj
  -- column 0 first, then each row
  have hvis00 : ((breakWallsLoop rng (genFuel R C)
      ⟨setVisited (break_entrance_and_exit (createCells x1 y1 R C csx csy seed)) 0 0,
        0, [], [(0, 0)]⟩ 0 0).maze.cells 0 0).visited = true :=
    hmono.2.2.2.2 0 0 (setVisited_visited_self _ 0 0)
  have hcol : ∀ a, a < R →
      ((breakWallsLoop rng (genFuel R C)
        ⟨setVisited (break_entrance_and_exit (createCells x1 y1 R C csx csy seed)) 0 0,
          0, [], [(0, 0)]⟩ 0 0).maze.cells a 0).visited = true := by
    intro a
    induction a with
    | zero => intro _; exact hvis00
    | succ a iha =>
      intro ha
      exact hclosed (a, 0) (by omega) hC (iha (by omega)) (a + 1, 0) ha hC
        (Or.inr (Or.inr (Or.inl ⟨rfl, rfl⟩)))
  have hall : ∀ p : Nat × Nat, p.1 < R → p.2 < C →
      ((breakWallsLoop rng (genFuel R C)
        ⟨setVisited (break_entrance_and_exit (createCells x1 y1 R C csx csy seed)) 0 0,
          0, [], [(0, 0)]⟩ 0 0).maze.cells p.1 p.2).visited = true := by
    intro p
    obtain ⟨a, b⟩ := p
    induction b with
    | zero => intro ha _; exact hcol a ha
    | succ b ihb =>
      intro ha hb
      exact hclosed (a, b) ha (by omega) (ihb ha (by omega)) (a, b + 1) ha hb
        (Or.inl ⟨rfl, rfl⟩)
  refine ⟨hall, ?_, ?_, hGr, hGc⟩
  · intro p hp1 hp2
    by_cases hp0 : p.1 = 0 ∧ p.2 = 0
    · have hp : p = (0, 0) := by
        obtain ⟨a, b⟩ := p
        simp_all
      rw [hp]
      exact Relation.ReflTransGen.refl
    · exact (hnew p ⟨hp1, hp2⟩ (hall p hp1 hp2) (hstart p hp0)).2
  · have hvfull : visitedCount (breakWallsLoop rng (genFuel R C)
        ⟨setVisited (break_entrance_and_exit (createCells x1 y1 R C csx csy seed)) 0 0,
          0, [], [(0, 0)]⟩ 0 0).maze = R * C := by
      have := visitedCount_full (m := (breakWallsLoop rng (genFuel R C)
        ⟨setVisited (break_entrance_and_exit (createCells x1 y1 R C csx csy seed)) 0 0,
          0, [], [(0, 0)]⟩ 0 0).maze)
        (fun p hp => hall p (by rw [← hGr]; exact hp.1) (by rw [← hGc]; exact hp.2))
      rw [hGr, hGc] at this
      exact this
    have hbp0 : brokenPairs (setVisited
        (break_entrance_and_exit (createCells x1 y1 R C csx csy seed)) 0 0) = 0 := by
      rw [brokenPairs_setVisited]
      exact brokenPairs_init x1 y1 R C csx csy seed
    have hRC : 1 ≤ R * C := Nat.mul_pos hR hC
    have hv1 : visitedCount (setVisited
        (break_entrance_and_exit (createCells x1 y1 R C csx csy seed)) 0 0) = 1 := by
      omega
    dsimp only at hcountf
    omega

/-! ## Reset leaves walls (and hence open pairs) unchanged -/

lemma hOpen_reset (m : Maze) (a b : Nat) :
    hOpen (reset_cells_visited m) a b = hOpen m a b := by
  unfold hOpen
  rw [reset_num_cols, (reset_cells_walls m a b).2.1, (reset_cells_walls m a (b + 1)).1]

lemma vOpen_reset (m : Maze) (a b : Nat) :
    vOpen (reset_cells_visited m) a b = vOpen m a b := by
  unfold vOpen
  rw [reset_num_rows, (reset_cells_walls m a b).2.2.2.1,
    (reset_cells_walls m (a + 1) b).2.2.1]

lemma brokenPairs_reset (m : Maze) :
    brokenPairs (reset_cells_visited m) = brokenPairs m := by
  unfold brokenPairs
  rw [reset_num_rows, reset_num_cols]
  have h1 := card_filter_congrB (gridPoints m.num_rows m.num_cols)
    (fun q => hOpen m q.1 q.2) (fun q => hOpen (reset_cells_visited m) q.1 q.2)
    (fun x _ => by dsimp only; rw [hOpen_reset])
  have h2 := card_filter_congrB (gridPoints m.num_rows m.num_cols)
    (fun q => vOpen m q.1 q.2) (fun q => vOpen (reset_cells_visited m) q.1 q.2)
    (fun x _ => by dsimp only; rw [vOpen_reset])
  dsimp only at h1 h2
  omega

lemma adjOpen_reset (m : Maze) (p q : Nat × Nat) :
    adjOpen (reset_cells_visited m) p q ↔ adjOpen m p q := by
  unfold adjOpen inGrid
  rw [reset_num_rows, reset_num_cols,
    (reset_cells_walls m p.1 p.2).1, (reset_cells_walls m p.1 p.2).2.1,
    (reset_cells_walls m p.1 p.2).2.2.1, (reset_cells_walls m p.1 p.2).2.2.2.1,
    (reset_cells_walls m q.1 q.2).1, (reset_cells_walls m q.1 q.2).2.1,
    (reset_cells_walls m q.1 q.2).2.2.1, (reset_cells_walls m q.1 q.2).2.2.2.1]

lemma reachOpen_reset (m : Maze) (p q : Nat × Nat) :
    ReachOpen (reset_cells_visited m) p q ↔ ReachOpen m p q :=
  ⟨Relation.ReflTransGen.mono fun _ _ ha => (adjOpen_reset m _ _).mp ha,
   Relation.ReflTransGen.mono fun _ _ ha => (adjOpen_reset m _ _).mpr ha⟩

lemma mirrored_create_cells (rng : Nat → Nat) (x1 y1 : Int) (R C : Nat)
    (csx csy : Int) (seed : Option Nat) :
    Mirrored (create_cells rng x1 y1 R C csx csy seed).maze := by
  show Mirrored (reset_cells_visited (break_walls_r rng (genFuel R C)
    ⟨break_entrance_and_exit (createCells x1 y1 R C csx csy seed), 0, [], []⟩ 0 0).maze)
  exact mirrored_reset (mirrored_break_walls_r _ _ _ _ _
    (mirrored_break_entrance (mirrored_createCells x1 y1 R C csx csy seed)))

/-- C1: for every grid with `num_rows ≥ 1` and `num_cols ≥ 1` and every
random stream, after generation the open (wall-absent) adjacencies form a
spanning structure: a flood-fill from `(0,0)` along open wall-pairs
reaches every one of the `num_rows * num_cols` cells, and the number of
broken interior wall-pairs is exactly `num_rows * num_cols - 1`. -/
theorem C1_generation_spanning_tree (rng : Nat → Nat) (x1 y1 : Int) (R C : Nat)
    (csx csy : Int) (seed : Option Nat) (hR : 1 ≤ R) (hC : 1 ≤ C) :
    (∀ p : Nat × Nat, p.1 < R → p.2 < C →
      ReachOpen (create_cells rng x1 y1 R C csx csy seed).maze (0, 0) p) ∧
    brokenPairs (create_cells rng x1 y1 R C csx csy seed).maze = R * C - 1 := by
  obtain ⟨hall, hreach, hbp, hGr, hGc⟩ :=
    gen_root rng x1 y1 R C csx csy seed hR hC _ rfl
  constructor
  · intro p h1 h2
    show ReachOpen (reset_cells_visited (break_walls_r rng (genFuel R C)
      ⟨break_entrance_and_exit (createCells x1 y1 R C csx csy seed), 0, [], []⟩
      0 0).maze) (0, 0) p
    exact (reachOpen_reset _ _ _).mpr (hreach p h1 h2)
  · show brokenPairs (reset_cells_visited (break_walls_r rng (genFuel R C)
      ⟨break_entrance_and_exit (createCells x1 y1 R C csx csy seed), 0, [], []⟩
      0 0).maze) = R * C - 1
    rw [brokenPairs_reset]
    exact hbp

theorem C1_generation_spanning_tree_witness :
    ReachOpen (create_cells (fun _ => 0) 0 0 2 2 10 10 none).maze (0, 0) (1, 1) ∧
    brokenPairs (create_cells (fun _ => 0) 0 0 2 2 10 10 none).maze = 2 * 2 - 1 :=
  ⟨(C1_generation_spanning_tree (fun _ => 0) 0 0 2 2 10 10 none (by decide)
      (by decide)).1 (1, 1) (by decide) (by decide),
   (C1_generation_spanning_tree (fun _ => 0) 0 0 2 2 10 10 none (by decide)
      (by decide)).2⟩

/-- C5: the mirrored-walls invariant holds at every point during and after
generation: the fresh grid satisfies it, every primitive mutation of the
program (opening the entrance and exit, clearing one wall-pair between
adjacent cells, marking a cell visited, the whole recursive carve from any
state and cell, resetting the visited flags) preserves it, and the fully
generated maze satisfies it; no operation ever creates a one-sided
opening between two adjacent cells. -/
theorem C5_mirrored_walls :
    (∀ (x1 y1 : Int) (R C : Nat) (csx csy : Int) (seed : Option Nat),
      Mirrored (createCells x1 y1 R C csx csy seed)) ∧
    (∀ m : Maze, Mirrored m → Mirrored (break_entrance_and_exit m)) ∧
    (∀ (m : Maze) (i j : Nat) (p : Nat × Nat), adjacentCell (i, j) p → Mirrored m →
      Mirrored (breakWallsBetween m i j p.1 p.2)) ∧
    (∀ (m : Maze) (i j : Nat), Mirrored m → Mirrored (setVisited m i j)) ∧
    (∀ (rng : Nat → Nat) (fuel : Nat) (s : GenState) (i j : Nat), Mirrored s.maze →
      Mirrored (break_walls_r rng fuel s i j).maze) ∧
    (∀ m : Maze, Mirrored m → Mirrored (reset_cells_visited m)) ∧
    (∀ (rng : Nat → Nat) (x1 y1 : Int) (R C : Nat) (csx csy : Int)
      (seed : Option Nat), Mirrored (create_cells rng x1 y1 R C csx csy seed).maze) :=
  ⟨mirrored_createCells,
   fun _ hm => mirrored_break_entrance hm,
   fun _ _ _ _ ha hm => mirrored_breakWallsBetween ha hm,
   fun _ i j hm => mirrored_setVisited i j hm,
   fun rng fuel s i j hm => mirrored_break_walls_r rng fuel s i j hm,
   fun _ hm => mirrored_reset hm,
   mirrored_create_cells⟩

theorem C5_mirrored_walls_witness :
    Mirrored (break_entrance_and_exit (createCells 0 0 2 2 10 10 none)) ∧
    Mirrored (create_cells (fun _ => 0) 0 0 2 2 10 10 none).maze :=
  ⟨C5_mirrored_walls.2.1 (createCells 0 0 2 2 10 10 none)
     (C5_mirrored_walls.1 0 0 2 2 10 10 none),
   C5_mirrored_walls.2.2.2.2.2.2 (fun _ => 0) 0 0 2 2 10 10 none⟩

/-! ## Solver: unfolding and the frame discipline -/

lemma solve_r_zero (s : SolveState) (i j : Nat) : solve_r 0 s i j = (s, false) := rfl

lemma solve_r_succ (fuel : Nat) (s : SolveState) (i j : Nat) :
    solve_r (fuel + 1) s i j =
      if i = (setVisited s.maze i j).num_rows - 1 ∧
          j = (setVisited s.maze i j).num_cols - 1 then
        (⟨setVisited s.maze i j, s.entered ++ [(i, j)]⟩, true)
      else
        tryMoves (solve_r fuel) ⟨setVisited s.maze i j, s.entered ++ [(i, j)]⟩
          [((i : Int) - 1, (j : Int), ((setVisited s.maze i j).cells i j).has_top_wall),
           ((i : Int) + 1, (j : Int),
             ((setVisited s.maze i j).cells i j).has_bottom_wall),
           ((i : Int), (j : Int) - 1, ((setVisited s.maze i j).cells i j).has_left_wall),
           ((i : Int), (j : Int) + 1,
             ((setVisited s.maze i j).cells i j).has_right_wall)] := rfl

lemma tryMoves_nil (recur : SolveState → Nat → Nat → SolveState × Bool)
    (s : SolveState) : tryMoves recur s [] = (s, false) := rfl

lemma tryMoves_cons (recur : SolveState → Nat → Nat → SolveState × Bool)
    (s : SolveState) (ti tj : Int) (w : Bool) (rest : List (Int × Int × Bool)) :
    tryMoves recur s ((ti, tj, w) :: rest) =
      if ti < 0 ∨ tj < 0 then tryMoves recur s rest
      else if (s.maze.num_rows : Int) ≤ ti ∨ (s.maze.num_cols : Int) ≤ tj then
        tryMoves recur s rest
      else if (s.maze.cells ti.toNat tj.toNat).visited then tryMoves recur s rest
      else if w then tryMoves recur s rest
      else if (recur s ti.toNat tj.toNat).2 then ((recur s ti.toNat tj.toNat).1, true)
      else tryMoves recur (recur s ti.toNat tj.toNat).1 rest := rfl

lemma solveFrame_refl (m : Maze) : SolveFrame m m :=
  ⟨rfl, rfl, rfl, fun _ _ => ⟨rfl, rfl, rfl, rfl⟩, fun _ _ h => h⟩

lemma solveFrame_trans {m1 m2 m3 : Maze} (h12 : SolveFrame m1 m2)
    (h23 : SolveFrame m2 m3) : SolveFrame m1 m3 := by
  obtain ⟨a12, b12, c12, w12, v12⟩ := h12
  obtain ⟨a23, b23, c23, w23, v23⟩ := h23
  refine ⟨a23.trans a12, b23.trans b12, c23.trans c12, fun a b => ?_,
    fun a b h => v23 a b (v12 a b h)⟩
  exact ⟨(w23 a b).1.trans (w12 a b).1, (w23 a b).2.1.trans (w12 a b).2.1,
    (w23 a b).2.2.1.trans (w12 a b).2.2.1, (w23 a b).2.2.2.trans (w12 a b).2.2.2⟩

lemma solveFrame_setVisited (m : Maze) (i j : Nat) : SolveFrame m (setVisited m i j) :=
  ⟨rfl, rfl, rfl, fun a b => setVisited_walls m i j a b,
   fun a b h => setVisited_visited_mono m i j a b h⟩

lemma tryMoves_frame (recur : SolveState → Nat → Nat → SolveState × Bool)
    (hrec : ∀ (s : SolveState) (a b : Nat), SolveFrame s.maze ((recur s a b).1).maze) :
    ∀ (l : List (Int × Int × Bool)) (s : SolveState),
      SolveFrame s.maze ((tryMoves recur s l).1).maze := by
  intro l
  induction l with
  | nil => intro s; exact solveFrame_refl _
  | cons hd rest ih =>
    intro s
    obtain ⟨ti, tj, w⟩ := hd
    rw [tryMoves_cons]
    split_ifs
    · exact ih s
    · exact ih s
    · exact ih s
    · exact ih s
    · exact hrec s ti.toNat tj.toNat
    · exact solveFrame_trans (hrec s ti.toNat tj.toNat) (ih _)

lemma solve_r_frame (fuel : Nat) :
    ∀ (s : SolveState) (i j : Nat), SolveFrame s.maze ((solve_r fuel s i j).1).maze := by
  induction fuel with
  | zero => intro s i j; exact solveFrame_refl _
  | succ fuel ih =>
    intro s i j
    rw [solve_r_succ]
    split_ifs
    · exact solveFrame_setVisited s.maze i j
    · exact solveFrame_trans (solveFrame_setVisited s.maze i j)
        (tryMoves_frame (solve_r fuel) (fun s a b => ih s a b) _ _)

lemma unvisitedCount_le_of_solveFrame {m m' : Maze} (h : SolveFrame m m') :
    unvisitedCount m' ≤ unvisitedCount m := by
  unfold unvisitedCount
  rw [h.1, h.2.1]
  refine card_filter_leB _ _ _ fun x _ hx => ?_
  dsimp only at hx ⊢
  rw [Bool.not_eq_true'] at hx ⊢
  by_contra hc
  rw [Bool.not_eq_false] at hc
  have := h.2.2.2.2 x.1 x.2 hc
  rw [hx] at this
  cases this

/-! ## Solver: the entered-cells trace -/

lemma newTrace_refl (s : SolveState) : NewTrace s s [] :=
  ⟨rfl, rfl, by simp, List.nodup_nil, fun _ _ h => h, by simp⟩

lemma newTrace_comp {s1 s2 s3 : SolveState} {d1 d2 : List (Nat × Nat)}
    (h12 : NewTrace s1 s2 d1) (h23 : NewTrace s2 s3 d2) :
    NewTrace s1 s3 (d1 ++ d2) := by
  obtain ⟨r12, c12, e12, n12, v12, m12⟩ := h12
  obtain ⟨r23, c23, e23, n23, v23, m23⟩ := h23
  refine ⟨r23.trans r12, c23.trans c12, by rw [e23, e12, List.append_assoc],
    ?_, fun a b h => v23 a b (v12 a b h), ?_⟩
  · refine List.Nodup.append n12 n23 fun p hp1 hp2 => ?_
    have hv2 : (s2.maze.cells p.1 p.2).visited = true := (m12 p hp1).2.2
    have hv2' : (s2.maze.cells p.1 p.2).visited = false := (m23 p hp2).2.1
    rw [hv2] at hv2'
    cases hv2'
  · intro p hp
    rcases List.mem_append.mp hp with hp1 | hp2
    · obtain ⟨hg, hu, hv⟩ := m12 p hp1
      exact ⟨hg, hu, v23 p.1 p.2 hv⟩
    · obtain ⟨hg, hu, hv⟩ := m23 p hp2
      refine ⟨⟨by rw [← r12]; exact hg.1, by rw [← c12]; exact hg.2⟩, ?_, hv⟩
      by_contra hc
      rw [Bool.not_eq_false] at hc
      have := v12 p.1 p.2 hc
      rw [hu] at this
      cases this

lemma newTrace_mark (s : SolveState) (i j : Nat) (hi : i < s.maze.num_rows)
    (hj : j < s.maze.num_cols) (hv : (s.maze.cells i j).visited = false) :
    NewTrace s ⟨setVisited s.maze i j, s.entered ++ [(i, j)]⟩ [(i, j)] :=
  ⟨rfl, rfl, rfl, List.nodup_singleton _,
   fun a b h => setVisited_visited_mono s.maze i j a b h,
   fun p hp => by
     rw [List.mem_singleton] at hp
     subst hp
     exact ⟨⟨hi, hj⟩, hv, setVisited_visited_self s.maze i j⟩⟩

lemma tryMoves_trace (recur : SolveState → Nat → Nat → SolveState × Bool)
    (hrec : ∀ (s : SolveState) (a b : Nat), a < s.maze.num_rows →
      b < s.maze.num_cols → (s.maze.cells a b).visited = false →
      ∃ d, NewTrace s ((recur s a b)).1 d) :
    ∀ (l : List (Int × Int × Bool)) (s : SolveState),
      ∃ d, NewTrace s ((tryMoves recur s l)).1 d := by
  intro l
  induction l with
  | nil => intro s; exact ⟨[], newTrace_refl s⟩
  | cons hd rest ih =>
    intro s
    obtain ⟨ti, tj, w⟩ := hd
    rw [tryMoves_cons]
    split_ifs with h1 h2 h3 h4 h5
    · exact ih s
    · exact ih s
    · exact ih s
    · exact ih s
    · push_neg at h1 h2
      have hb1 : ti.toNat < s.maze.num_rows := by omega
      have hb2 : tj.toNat < s.maze.num_cols := by omega
      have hun : (s.maze.cells ti.toNat tj.toNat).visited = false := by
        rw [Bool.not_eq_true] at h3
        exact h3
      exact hrec s ti.toNat tj.toNat hb1 hb2 hun
    · push_neg at h1 h2
      have hb1 : ti.toNat < s.maze.num_rows := by omega
      have hb2 : tj.toNat < s.maze.num_cols := by omega
      have hun : (s.maze.cells ti.toNat tj.toNat).visited = false := by
        rw [Bool.not_eq_true] at h3
        exact h3
      obtain ⟨d1, hd1⟩ := hrec s ti.toNat tj.toNat hb1 hb2 hun
      obtain ⟨d2, hd2⟩ := ih (recur s ti.toNat tj.toNat).1
      exact ⟨d1 ++ d2, newTrace_comp hd1 hd2⟩

lemma solve_r_trace (fuel : Nat) :
    ∀ (s : SolveState) (i j : Nat), i < s.maze.num_rows → j < s.maze.num_cols →
      (s.maze.cells i j).visited = false →
      ∃ d, NewTrace s ((solve_r fuel s i j)).1 d := by
  induction fuel with
  | zero => intro s i j _ _ _; exact ⟨[], newTrace_refl s⟩
  | succ fuel ih =>
    intro s i j hi hj hv
    rw [solve_r_succ]
    split_ifs
    · exact ⟨[(i, j)], newTrace_mark s i j hi hj hv⟩
    · obtain ⟨d2, hd2⟩ := tryMoves_trace (solve_r fuel) (fun s a b h1 h2 h3 =>
        ih s a b h1 h2 h3) _ ⟨setVisited s.maze i j, s.entered ++ [(i, j)]⟩
      exact ⟨(i, j) :: d2, by
        have := newTrace_comp (newTrace_mark s i j hi hj hv) hd2
        simpa using this⟩

lemma trace_length_le {m : Maze} {d : List (Nat × Nat)} (hnd : d.Nodup)
    (hmem : ∀ p ∈ d, inGrid m p) : d.length ≤ m.num_rows * m.num_cols := by
  classical
  have h1 : d.toFinset.card = d.length := List.toFinset_card_of_nodup hnd
  have h2 : d.toFinset ⊆ gridPoints m.num_rows m.num_cols := by
    intro p hp
    rw [List.mem_toFinset] at hp
    exact mem_gridPoints.mpr ⟨(hmem p hp).1, (hmem p hp).2⟩
  calc d.length = d.toFinset.card := h1.symm
    _ ≤ (gridPoints m.num_rows m.num_cols).card := Finset.card_le_card h2
    _ = m.num_rows * m.num_cols := by simp [gridPoints]

/-! ## Solver: fuel stability -/

lemma stepOpen_frame {m m' : Maze} (h : SolveFrame m m') {p q : Nat × Nat} :
    stepOpen m' p q ↔ stepOpen m p q := by
  unfold stepOpen inGrid
  rw [h.1, h.2.1, (h.2.2.2.1 p.1 p.2).1, (h.2.2.2.1 p.1 p.2).2.1,
    (h.2.2.2.1 p.1 p.2).2.2.1, (h.2.2.2.1 p.1 p.2).2.2.2]

lemma solve_r_fuel_stable : ∀ (fuel fuel' : Nat) (s : SolveState) (i j : Nat),
    i < s.maze.num_rows → j < s.maze.num_cols →
    (s.maze.cells i j).visited = false →
    unvisitedCount s.maze ≤ fuel → unvisitedCount s.maze ≤ fuel' →
    solve_r fuel s i j = solve_r fuel' s i j := by
  intro fuel
  induction fuel with
  | zero =>
    intro fuel' s i j hi hj hv hf _
    have := unvisitedCount_pos (m := s.maze) (q := (i, j)) ⟨hi, hj⟩ hv
    omega
  | succ fuel ih =>
    intro fuel' s i j hi hj hv hf hf'
    have hpos := unvisitedCount_pos (m := s.maze) (q := (i, j)) ⟨hi, hj⟩ hv
    cases fuel' with
    | zero => omega
    | succ fuel' =>
      rw [solve_r_succ, solve_r_succ]
      split_ifs with ht
      · rfl
      · have hcm := (@counts_mark s.maze (setVisited s.maze i j) rfl rfl
          i j hi hj (fun a b => setVisited_visited s.maze i j a b) hv).1
        have hlist : ∀ (l : List (Int × Int × Bool)) (s' : SolveState),
            unvisitedCount s'.maze ≤ fuel → unvisitedCount s'.maze ≤ fuel' →
            tryMoves (solve_r fuel) s' l = tryMoves (solve_r fuel') s' l := by
          intro l
          induction l with
          | nil => intro s' _ _; rfl
          | cons hd rest ihl =>
            intro s' hsf hsf'
            obtain ⟨ti, tj, w⟩ := hd
            rw [tryMoves_cons, tryMoves_cons]
            by_cases h1 : ti < 0 ∨ tj < 0
            · rw [if_pos h1, if_pos h1]; exact ihl s' hsf hsf'
            · rw [if_neg h1, if_neg h1]
              by_cases h2 : (s'.maze.num_rows : Int) ≤ ti ∨ (s'.maze.num_cols : Int) ≤ tj
              · rw [if_pos h2, if_pos h2]; exact ihl s' hsf hsf'
              · rw [if_neg h2, if_neg h2]
                by_cases h3 : (s'.maze.cells ti.toNat tj.toNat).visited = true
                · rw [if_pos h3, if_pos h3]; exact ihl s' hsf hsf'
                · rw [if_neg h3, if_neg h3]
                  by_cases h4 : w = true
                  · rw [if_pos h4, if_pos h4]; exact ihl s' hsf hsf'
                  · rw [if_neg h4, if_neg h4]
                    push_neg at h1 h2
                    have hb1 : ti.toNat < s'.maze.num_rows := by omega
                    have hb2 : tj.toNat < s'.maze.num_cols := by omega
                    have hun : (s'.maze.cells ti.toNat tj.toNat).visited = false := by
                      rw [Bool.not_eq_true] at h3
                      exact h3
                    have heq := ih fuel' s' ti.toNat tj.toNat hb1 hb2 hun hsf hsf'
                    rw [heq]
                    have hle := unvisitedCount_le_of_solveFrame
                      (solve_r_frame fuel' s' ti.toNat tj.toNat)
                    split_ifs
                    · rfl
                    · exact ihl _ (le_trans hle hsf) (le_trans hle hsf')
        have hu1 : unvisitedCount (setVisited s.maze i j) ≤ fuel := by omega
        have hu2 : unvisitedCount (setVisited s.maze i j) ≤ fuel' := by omega
        exact hlist _ ⟨setVisited s.maze i j, s.entered ++ [(i, j)]⟩ hu1 hu2

/-! ## Solver: saturation on failure

If a call of `solve_r` on an unvisited in-bounds cell returns `false`,
then every cell it newly visited (including the call cell) is not the
target and has every neighbour it could step into (in-grid, facing flag
clear) visited on return. -/

lemma tryMoves_sat (recur : SolveState → Nat → Nat → SolveState × Bool) (F : Nat)
    (hrecF : ∀ (s : SolveState) (a b : Nat), SolveFrame s.maze ((recur s a b).1).maze)
    (hrecS : ∀ (s : SolveState) (a b : Nat), a < s.maze.num_rows →
      b < s.maze.num_cols → (s.maze.cells a b).visited = false →
      unvisitedCount s.maze ≤ F →
      (((recur s a b).1).maze.cells a b).visited = true ∧
      ((recur s a b).2 = false →
        ∀ p : Nat × Nat, inGrid s.maze p →
          (((recur s a b).1).maze.cells p.1 p.2).visited = true →
          (s.maze.cells p.1 p.2).visited = false →
          ¬(p.1 = s.maze.num_rows - 1 ∧ p.2 = s.maze.num_cols - 1) ∧
          ∀ q : Nat × Nat, stepOpen ((recur s a b).1).maze p q →
            (((recur s a b).1).maze.cells q.1 q.2).visited = true)) :
    ∀ (l : List (Int × Int × Bool)) (s : SolveState), unvisitedCount s.maze ≤ F →
      (tryMoves recur s l).2 = false →
      (∀ (ti tj : Int) (w : Bool), (ti, tj, w) ∈ l → 0 ≤ ti → 0 ≤ tj →
        ti < (s.maze.num_rows : Int) → tj < (s.maze.num_cols : Int) → w = false →
        (((tryMoves recur s l).1).maze.cells ti.toNat tj.toNat).visited = true) ∧
      (∀ p : Nat × Nat, inGrid s.maze p →
        (((tryMoves recur s l).1).maze.cells p.1 p.2).visited = true →
        (s.maze.cells p.1 p.2).visited = false →
        ¬(p.1 = s.maze.num_rows - 1 ∧ p.2 = s.maze.num_cols - 1) ∧
        ∀ q : Nat × Nat, stepOpen ((tryMoves recur s l).1).maze p q →
          (((tryMoves recur s l).1).maze.cells q.1 q.2).visited = true) := by
  intro l
  induction l with
  | nil =>
    intro s hF _
    constructor
    · intro ti tj w hmem
      simp at hmem
    · intro p _ hp1 hp2
      rw [tryMoves_nil] at hp1
      rw [hp1] at hp2
      cases hp2
  | cons hd rest ih =>
    intro s hF hb
    obtain ⟨ti0, tj0, w0⟩ := hd
    rw [tryMoves_cons] at hb ⊢
    split_ifs at hb ⊢ with h1 h2 h3 h4 h5
    · -- head out of bounds (negative)
      obtain ⟨A, B⟩ := ih s hF hb
      refine ⟨?_, B⟩
      intro ti tj w hmem hz1 hz2 hlt1 hlt2 hw
      rcases List.mem_cons.mp hmem with he | hm
      · exfalso
        have he1 : ti = ti0 ∧ tj = tj0 := by
          injection he with e1 e2
          injection e2 with e2 e3
          exact ⟨e1, e2⟩
        obtain ⟨e1, e2⟩ := he1
        omega
      · exact A ti tj w hm hz1 hz2 hlt1 hlt2 hw
    · -- head out of bounds (too large)
      obtain ⟨A, B⟩ := ih s hF hb
      refine ⟨?_, B⟩
      intro ti tj w hmem hz1 hz2 hlt1 hlt2 hw
      rcases List.mem_cons.mp hmem with he | hm
      · exfalso
        have he1 : ti = ti0 ∧ tj = tj0 := by
          injection he with e1 e2
          injection e2 with e2 e3
          exact ⟨e1, e2⟩
        obtain ⟨e1, e2⟩ := he1
        omega
      · exact A ti tj w hm hz1 hz2 hlt1 hlt2 hw
    · -- head already visited
      obtain ⟨A, B⟩ := ih s hF hb
      refine ⟨?_, B⟩
      intro ti tj w hmem hz1 hz2 hlt1 hlt2 hw
      rcases List.mem_cons.mp hmem with he | hm
      · have hfr := tryMoves_frame recur hrecF rest s
        have he1 : ti = ti0 ∧ tj = tj0 := by
          injection he with e1 e2
          injection e2 with e2 e3
          exact ⟨e1, e2⟩
        rw [he1.1, he1.2]
        exact hfr.2.2.2.2 ti0.toNat tj0.toNat h3
      · exact A ti tj w hm hz1 hz2 hlt1 hlt2 hw
    · -- head behind a wall
      obtain ⟨A, B⟩ := ih s hF hb
      refine ⟨?_, B⟩
      intro ti tj w hmem hz1 hz2 hlt1 hlt2 hw
      rcases List.mem_cons.mp hmem with he | hm
      · exfalso
        have he3 : w = w0 := by
          injection he with e1 e2
          injection e2
        rw [he3] at hw
        rw [hw] at h4
        exact Bool.noConfusion h4
      · exact A ti tj w hm hz1 hz2 hlt1 hlt2 hw
    · -- move into the head neighbour, which fails; continue with the rest
      push_neg at h1 h2
      have hb1 : ti0.toNat < s.maze.num_rows := by omega
      have hb2 : tj0.toNat < s.maze.num_cols := by omega
      have hun : (s.maze.cells ti0.toNat tj0.toNat).visited = false := by
        rw [Bool.not_eq_true] at h3
        exact h3
      have hfr1 : SolveFrame s.maze ((recur s ti0.toNat tj0.toNat).1).maze :=
        hrecF s ti0.toNat tj0.toNat
      have hrec1 := hrecS s ti0.toNat tj0.toNat hb1 hb2 hun hF
      have hu1 : unvisitedCount ((recur s ti0.toNat tj0.toNat).1).maze ≤ F :=
        le_trans (unvisitedCount_le_of_solveFrame hfr1) hF
      obtain ⟨A, B⟩ := ih (recur s ti0.toNat tj0.toNat).1 hu1 hb
      have hfr2 : SolveFrame ((recur s ti0.toNat tj0.toNat).1).maze
          ((tryMoves recur (recur s ti0.toNat tj0.toNat).1 rest).1).maze :=
        tryMoves_frame recur hrecF rest (recur s ti0.toNat tj0.toNat).1
      refine ⟨?_, ?_⟩
      · intro ti tj w hmem hz1 hz2 hlt1 hlt2 hw
        rcases List.mem_cons.mp hmem with he | hm
        · have he1 : ti = ti0 ∧ tj = tj0 ∧ w = w0 := by
            injection he with e1 e2
            injection e2 with e2 e3
            exact ⟨e1, e2, e3⟩
          rw [he1.1, he1.2.1]
          exact hfr2.2.2.2.2 ti0.toNat tj0.toNat hrec1.1
        · refine A ti tj w hm hz1 hz2 ?_ ?_ hw
          · rw [hfr1.1]; exact hlt1
          · rw [hfr1.2.1]; exact hlt2
      · intro p hgp hpv hps
        by_cases hv1 : (((recur s ti0.toNat tj0.toNat).1).maze.cells p.1 p.2).visited
            = true
        · obtain ⟨hnt, hsat⟩ := hrec1.2 (by rw [Bool.not_eq_true] at h5; exact h5)
            p hgp hv1 hps
          refine ⟨hnt, fun q hq => ?_⟩
          exact hfr2.2.2.2.2 q.1 q.2 (hsat q ((stepOpen_frame hfr2).mp hq))
        · rw [Bool.not_eq_true] at hv1
          have hgp1 : inGrid ((recur s ti0.toNat tj0.toNat).1).maze p :=
            ⟨by rw [hfr1.1]; exact hgp.1, by rw [hfr1.2.1]; exact hgp.2⟩
          obtain ⟨hnt, hsat⟩ := B p hgp1 hpv hv1
          refine ⟨?_, hsat⟩
          rw [hfr1.1, hfr1.2.1] at hnt
          exact hnt

lemma solve_r_sat : ∀ (fuel : Nat) (s : SolveState) (i j : Nat),
    i < s.maze.num_rows → j < s.maze.num_cols →
    (s.maze.cells i j).visited = false →
    unvisitedCount s.maze ≤ fuel →
    (((solve_r fuel s i j).1).maze.cells i j).visited = true ∧
    ((solve_r fuel s i j).2 = false →
      ∀ p : Nat × Nat, inGrid s.maze p →
        (((solve_r fuel s i j).1).maze.cells p.1 p.2).visited = true →
        (s.maze.cells p.1 p.2).visited = false →
        ¬(p.1 = s.maze.num_rows - 1 ∧ p.2 = s.maze.num_cols - 1) ∧
        ∀ q : Nat × Nat, stepOpen ((solve_r fuel s i j).1).maze p q →
          (((solve_r fuel s i j).1).maze.cells q.1 q.2).visited = true) := by
  intro fuel
  induction fuel with
  | zero =>
    intro s i j hi hj hv hF
    exfalso
    have := unvisitedCount_pos (m := s.maze) (q := (i, j)) ⟨hi, hj⟩ hv
    omega
  | succ fuel ih =>
    intro s i j hi hj hv hF
    rw [solve_r_succ]
    split_ifs with ht
    · refine ⟨setVisited_visited_self s.maze i j, ?_⟩
      intro hfalse
      simp at hfalse
    · have hu1 : unvisitedCount (setVisited s.maze i j) ≤ fuel := by
        have := (@counts_mark s.maze (setVisited s.maze i j) rfl rfl
          i j hi hj (fun a b => setVisited_visited s.maze i j a b) hv).1
        omega
      have hfrL := tryMoves_frame (solve_r fuel) (fun s a b => solve_r_frame fuel s a b)
        [((i : Int) - 1, (j : Int), ((setVisited s.maze i j).cells i j).has_top_wall),
         ((i : Int) + 1, (j : Int), ((setVisited s.maze i j).cells i j).has_bottom_wall),
         ((i : Int), (j : Int) - 1, ((setVisited s.maze i j).cells i j).has_left_wall),
         ((i : Int), (j : Int) + 1, ((setVisited s.maze i j).cells i j).has_right_wall)]
        ⟨setVisited s.maze i j, s.entered ++ [(i, j)]⟩
      constructor
      · exact hfrL.2.2.2.2 i j (setVisited_visited_self s.maze i j)
      · intro hb p hgp hpv hps
        obtain ⟨A, B⟩ := tryMoves_sat (solve_r fuel) fuel
          (fun s a b => solve_r_frame fuel s a b)
          (fun s a b h1 h2 h3 h4 => ih s a b h1 h2 h3 h4)
          [((i : Int) - 1, (j : Int), ((setVisited s.maze i j).cells i j).has_top_wall),
           ((i : Int) + 1, (j : Int),
             ((setVisited s.maze i j).cells i j).has_bottom_wall),
           ((i : Int), (j : Int) - 1, ((setVisited s.maze i j).cells i j).has_left_wall),
           ((i : Int), (j : Int) + 1, ((setVisited s.maze i j).cells i j).has_right_wall)]
          ⟨setVisited s.maze i j, s.entered ++ [(i, j)]⟩ hu1 hb
        by_cases hpij : p.1 = i ∧ p.2 = j
        · refine ⟨fun hc => ht ⟨by rw [← hpij.1]; exact hc.1,
            by rw [← hpij.2]; exact hc.2⟩, ?_⟩
          intro q hq
          obtain ⟨hqg, hdir⟩ := hq
          have hrows := hfrL.1
          have hcols := hfrL.2.1
          rcases hdir with ⟨e1, e2, hflag⟩ | ⟨e1, e2, hflag⟩ | ⟨e1, e2, hflag⟩ |
            ⟨e1, e2, hflag⟩
          · -- q is the right neighbour of (i,j)
            rw [hpij.1, hpij.2] at hflag
            rw [(hfrL.2.2.2.1 i j).2.1] at hflag
            have hres := A (i : Int) ((j : Int) + 1)
              ((setVisited s.maze i j).cells i j).has_right_wall
              (by simp) (by omega) (by omega)
              (by show (i : Int) < (s.maze.num_rows : Int); omega)
              (by show ((j : Int) + 1) < (s.maze.num_cols : Int)
                  have h5 := hqg.2
                  rw [hcols] at h5
                  have h6 : q.2 < s.maze.num_cols := h5
                  omega)
              hflag
            have hc1 : ((i : Int)).toNat = q.1 := by omega
            have hc2 : (((j : Int)) + 1).toNat = q.2 := by omega
            rw [hc1, hc2] at hres
            exact hres
          · -- q is the left neighbour of (i,j)
            rw [hpij.1, hpij.2] at hflag
            rw [(hfrL.2.2.2.1 i j).1] at hflag
            have hres := A (i : Int) ((j : Int) - 1)
              ((setVisited s.maze i j).cells i j).has_left_wall
              (by simp) (by omega) (by omega)
              (by show (i : Int) < (s.maze.num_rows : Int); omega)
              (by show ((j : Int) - 1) < (s.maze.num_cols : Int); omega)
              hflag
            have hc1 : ((i : Int)).toNat = q.1 := by omega
            have hc2 : (((j : Int)) - 1).toNat = q.2 := by omega
            rw [hc1, hc2] at hres
            exact hres
          · -- q is the lower neighbour of (i,j)
            rw [hpij.1, hpij.2] at hflag
            rw [(hfrL.2.2.2.1 i j).2.2.2] at hflag
            have hres := A ((i : Int) + 1) (j : Int)
              ((setVisited s.maze i j).cells i j).has_bottom_wall
              (by simp) (by omega) (by omega)
              (by show ((i : Int) + 1) < (s.maze.num_rows : Int)
                  have h5 := hqg.1
                  rw [hrows] at h5
                  have h6 : q.1 < s.maze.num_rows := h5
                  omega)
              (by show (j : Int) < (s.maze.num_cols : Int); omega)
              hflag
            have hc1 : (((i : Int)) + 1).toNat = q.1 := by omega
            have hc2 : ((j : Int)).toNat = q.2 := by omega
            rw [hc1, hc2] at hres
            exact hres
          · -- q is the upper neighbour of (i,j)
            rw [hpij.1, hpij.2] at hflag
            rw [(hfrL.2.2.2.1 i j).2.2.1] at hflag
            have hres := A ((i : Int) - 1) (j : Int)
              ((setVisited s.maze i j).cells i j).has_top_wall
              (by simp) (by omega) (by omega)
              (by show ((i : Int) - 1) < (s.maze.num_rows : Int); omega)
              (by show (j : Int) < (s.maze.num_cols : Int); omega)
              hflag
            have hc1 : (((i : Int)) - 1).toNat = q.1 := by omega
            have hc2 : ((j : Int)).toNat = q.2 := by omega
            rw [hc1, hc2] at hres
            exact hres
        · have hv1 : ((setVisited s.maze i j).cells p.1 p.2).visited = false := by
            rw [setVisited_visited, if_neg hpij]
            exact hps
          exact B p ⟨hgp.1, hgp.2⟩ hpv hv1

/-! ## The solver succeeds whenever the exit is reachable -/

lemma solve_true_of_reach (m : Maze) (hR : 1 ≤ m.num_rows) (hC : 1 ≤ m.num_cols)
    (hvis : ∀ a b, a < m.num_rows → b < m.num_cols → (m.cells a b).visited = false)
    (hreach : ReachOpen m (0, 0) (m.num_rows - 1, m.num_cols - 1)) :
    (solve m).2 = true := by
  by_contra hb
  rw [Bool.not_eq_true] at hb
  obtain ⟨h00, hnew⟩ := solve_r_sat (m.num_rows * m.num_cols) ⟨m, []⟩ 0 0 hR hC
    (hvis 0 0 hR hC) (unvisitedCount_le m)
  have hnew' := hnew hb
  have hfr := solve_r_frame (m.num_rows * m.num_cols) ⟨m, []⟩ 0 0
  have hV : ∀ p : Nat × Nat, ReachOpen m (0, 0) p →
      (((solve_r (m.num_rows * m.num_cols) ⟨m, []⟩ 0 0).1).maze.cells
        p.1 p.2).visited = true := by
    intro p hp
    induction hp with
    | refl => exact h00
    | @tail b c hab hbc ih =>
      obtain ⟨hgb, hgc, hdir⟩ := hbc
      have hstep : stepOpen ((solve_r (m.num_rows * m.num_cols) ⟨m, []⟩ 0 0).1).maze
          b c := by
        rw [stepOpen_frame hfr]
        refine ⟨hgc, ?_⟩
        rcases hdir with ⟨e1, e2, f1, f2⟩ | ⟨e1, e2, f1, f2⟩ | ⟨e1, e2, f1, f2⟩ |
          ⟨e1, e2, f1, f2⟩
        · exact Or.inl ⟨e1, e2, f1⟩
        · exact Or.inr (Or.inl ⟨e1, e2, f1⟩)
        · exact Or.inr (Or.inr (Or.inl ⟨e1, e2, f1⟩))
        · exact Or.inr (Or.inr (Or.inr ⟨e1, e2, f1⟩))
      exact (hnew' b hgb ih (hvis b.1 b.2 hgb.1 hgb.2)).2 c hstep
  have hvt := hV (m.num_rows - 1, m.num_cols - 1) hreach
  have hnt := (hnew' (m.num_rows - 1, m.num_cols - 1)
    ⟨Nat.sub_lt hR Nat.one_pos, Nat.sub_lt hC Nat.one_pos⟩ hvt
    (hvis (m.num_rows - 1) (m.num_cols - 1) (by omega) (by omega))).1
  exact hnt ⟨rfl, rfl⟩

/-- C2: for every maze produced by the generator (any random stream, any
geometry, any optional seed) and all `num_rows ≥ 1`, `num_cols ≥ 1`,
running the solver from `(0,0)` returns `true`. -/
theorem C2_generated_maze_solvable (rng : Nat → Nat) (x1 y1 : Int) (R C : Nat)
    (csx csy : Int) (seed : Option Nat) (hR : 1 ≤ R) (hC : 1 ≤ C) :
    (solve (create_cells rng x1 y1 R C csx csy seed).maze).2 = true := by
  obtain ⟨hall, hreach, hbp, hGr, hGc⟩ :=
    gen_root rng x1 y1 R C csx csy seed hR hC _ rfl
  have hmr : (create_cells rng x1 y1 R C csx csy seed).maze.num_rows = R := by
    show (reset_cells_visited (break_walls_r rng (genFuel R C)
      ⟨break_entrance_and_exit (createCells x1 y1 R C csx csy seed), 0, [], []⟩
      0 0).maze).num_rows = R
    rw [reset_num_rows]
    exact hGr
  have hmc : (create_cells rng x1 y1 R C csx csy seed).maze.num_cols = C := by
    show (reset_cells_visited (break_walls_r rng (genFuel R C)
      ⟨break_entrance_and_exit (createCells x1 y1 R C csx csy seed), 0, [], []⟩
      0 0).maze).num_cols = C
    rw [reset_num_cols]
    exact hGc
  apply solve_true_of_reach
  · rw [hmr]
    exact hR
  · rw [hmc]
    exact hC
  · intro a b ha hb
    rw [hmr] at ha
    rw [hmc] at hb
    show ((reset_cells_visited (break_walls_r rng (genFuel R C)
      ⟨break_entrance_and_exit (createCells x1 y1 R C csx csy seed), 0, [], []⟩
      0 0).maze).cells a b).visited = false
    rw [reset_cells_visited_eq, hGr, hGc, if_pos ⟨ha, hb⟩]
  · rw [hmr, hmc]
    show ReachOpen (reset_cells_visited (break_walls_r rng (genFuel R C)
      ⟨break_entrance_and_exit (createCells x1 y1 R C csx csy seed), 0, [], []⟩
      0 0).maze) (0, 0) (R - 1, C - 1)
    exact (reachOpen_reset _ _ _).mpr (hreach (R - 1, C - 1) (by omega) (by omega))

theorem C2_generated_maze_solvable_witness :
    (solve (create_cells (fun _ => 0) 0 0 2 2 10 10 none).maze).2 = true :=
  C2_generated_maze_solvable (fun _ => 0) 0 0 2 2 10 10 none (by decide) (by decide)


/-! ## The entrance and exit flags -/

lemma break_entrance_top_00 (m : Maze) :
    ((break_entrance_and_exit m).cells 0 0).has_top_wall = false := by
  rw [break_entrance_top]
  simp

lemma break_entrance_bottom_last (m : Maze) (a b : Nat) (ha : a = m.num_rows - 1)
    (hb : b = m.num_cols - 1) :
    ((break_entrance_and_exit m).cells a b).has_bottom_wall = false := by
  rw [break_entrance_bottom, if_pos ⟨ha, hb⟩]

lemma break_entrance_top_other (m : Maze) (a b : Nat) (h1 : ¬(a = 0 ∧ b = 0)) :
    ((break_entrance_and_exit m).cells a b).has_top_wall =
      (m.cells a b).has_top_wall := by
  rw [break_entrance_top, if_neg h1]

lemma break_entrance_bottom_other (m : Maze) (a b : Nat)
    (h2 : ¬(a = m.num_rows - 1 ∧ b = m.num_cols - 1)) :
    ((break_entrance_and_exit m).cells a b).has_bottom_wall =
      (m.cells a b).has_bottom_wall := by
  rw [break_entrance_bottom, if_neg h2]

/-- C6: after generation the top wall of `(0,0)` is open and the bottom
wall of `(num_rows-1, num_cols-1)` is open; neither flag is ever re-closed
afterwards, since the carving recursion never re-erects a cleared top or
bottom wall, the visited reset leaves every wall flag unchanged, and the
solver leaves every wall flag unchanged; and generation opens no other
wall on the outer boundary: every other top flag of row `0`, every other
bottom flag of the last row, and every left flag of column `0` and right
flag of the last column remain present. -/
theorem C6_fixed_openings (rng : Nat → Nat) (x1 y1 : Int) (R C : Nat)
    (csx csy : Int) (seed : Option Nat) (hR : 1 ≤ R) (hC : 1 ≤ C) :
    ((create_cells rng x1 y1 R C csx csy seed).maze.cells 0 0).has_top_wall = false ∧
    ((create_cells rng x1 y1 R C csx csy seed).maze.cells (R - 1)
      (C - 1)).has_bottom_wall = false ∧
    (∀ (rng2 : Nat → Nat) (fuel : Nat) (s : GenState) (i j a b : Nat),
      ((s.maze.cells a b).has_top_wall = false →
        ((break_walls_r rng2 fuel s i j).maze.cells a b).has_top_wall = false) ∧
      ((s.maze.cells a b).has_bottom_wall = false →
        ((break_walls_r rng2 fuel s i j).maze.cells a b).has_bottom_wall = false)) ∧
    (∀ (m : Maze) (a b : Nat),
      ((reset_cells_visited m).cells a b).has_top_wall = (m.cells a b).has_top_wall ∧
      ((reset_cells_visited m).cells a b).has_bottom_wall =
        (m.cells a b).has_bottom_wall) ∧
    (∀ (fuel : Nat) (s : SolveState) (i j a b : Nat),
      (((solve_r fuel s i j).1).maze.cells a b).has_top_wall =
        (s.maze.cells a b).has_top_wall ∧
      (((solve_r fuel s i j).1).maze.cells a b).has_bottom_wall =
        (s.maze.cells a b).has_bottom_wall) ∧
    (∀ j2, j2 ≠ 0 →
      ((create_cells rng x1 y1 R C csx csy seed).maze.cells 0 j2).has_top_wall
        = true) ∧
    (∀ j2, j2 ≠ C - 1 →
      ((create_cells rng x1 y1 R C csx csy seed).maze.cells (R - 1)
        j2).has_bottom_wall = true) ∧
    (∀ i2, ((create_cells rng x1 y1 R C csx csy seed).maze.cells i2 0).has_left_wall
      = true) ∧
    (∀ i2, ((create_cells rng x1 y1 R C csx csy seed).maze.cells i2
      (C - 1)).has_right_wall = true) := by
  have hmono := genMono_break_walls_r rng (genFuel R C)
    ⟨break_entrance_and_exit (createCells x1 y1 R C csx csy seed), 0, [], []⟩ 0 0
  have hbd := boundaryEq_break_walls_r rng (genFuel R C)
    ⟨break_entrance_and_exit (createCells x1 y1 R C csx csy seed), 0, [], []⟩ 0 0
    hR hC
  refine ⟨?_, ?_, ?_, ?_, ?_, ?_, ?_, ?_, ?_⟩
  · show ((reset_cells_visited (break_walls_r rng (genFuel R C)
      ⟨break_entrance_and_exit (createCells x1 y1 R C csx csy seed), 0, [], []⟩
      0 0).maze).cells 0 0).has_top_wall = false
    rw [(reset_cells_walls _ 0 0).2.2.1]
    rcases Bool.eq_false_or_eq_true ((break_walls_r rng (genFuel R C)
        ⟨break_entrance_and_exit (createCells x1 y1 R C csx csy seed), 0, [], []⟩
        0 0).maze.cells 0 0).has_top_wall with h | h
    case inr => exact h
    · exfalso
      have h2 : ((break_entrance_and_exit
          (createCells x1 y1 R C csx csy seed)).cells 0 0).has_top_wall = true :=
        (hmono.2.2.2.1 0 0).2.2.1 h
      rw [break_entrance_top_00] at h2
      exact Bool.noConfusion h2
  · show ((reset_cells_visited (break_walls_r rng (genFuel R C)
      ⟨break_entrance_and_exit (createCells x1 y1 R C csx csy seed), 0, [], []⟩
      0 0).maze).cells (R - 1) (C - 1)).has_bottom_wall = false
    rw [(reset_cells_walls _ (R - 1) (C - 1)).2.2.2.1]
    rcases Bool.eq_false_or_eq_true ((break_walls_r rng (genFuel R C)
        ⟨break_entrance_and_exit (createCells x1 y1 R C csx csy seed), 0, [], []⟩
        0 0).maze.cells (R - 1) (C - 1)).has_bottom_wall with h | h
    case inr => exact h
    · exfalso
      have h2 : ((break_entrance_and_exit
          (createCells x1 y1 R C csx csy seed)).cells (R - 1)
            (C - 1)).has_bottom_wall = true :=
        (hmono.2.2.2.1 (R - 1) (C - 1)).2.2.2 h
      rw [break_entrance_bottom_last (createCells x1 y1 R C csx csy seed)
        (R - 1) (C - 1) rfl rfl] at h2
      exact Bool.noConfusion h2
  · intro rng2 fuel s i j a b
    have hm := genMono_break_walls_r rng2 fuel s i j
    constructor
    · intro hfl
      rcases Bool.eq_false_or_eq_true (((break_walls_r rng2 fuel s
          i j).maze.cells a b).has_top_wall) with h | h
      case inr => exact h
      · rw [(hm.2.2.2.1 a b).2.2.1 h] at hfl
        exact Bool.noConfusion hfl
    · intro hfl
      rcases Bool.eq_false_or_eq_true (((break_walls_r rng2 fuel s
          i j).maze.cells a b).has_bottom_wall) with h | h
      case inr => exact h
      · rw [(hm.2.2.2.1 a b).2.2.2 h] at hfl
        exact Bool.noConfusion hfl
  · intro m a b
    exact ⟨(reset_cells_walls m a b).2.2.1, (reset_cells_walls m a b).2.2.2.1⟩
  · intro fuel s i j a b
    have hf := solve_r_frame fuel s i j
    exact ⟨(hf.2.2.2.1 a b).2.2.1, (hf.2.2.2.1 a b).2.2.2⟩
  · intro j2 hj2
    show ((reset_cells_visited (break_walls_r rng (genFuel R C)
      ⟨break_entrance_and_exit (createCells x1 y1 R C csx csy seed), 0, [], []⟩
      0 0).maze).cells 0 j2).has_top_wall = true
    rw [(reset_cells_walls _ 0 j2).2.2.1]
    have h1 : ((break_walls_r rng (genFuel R C)
        ⟨break_entrance_and_exit (createCells x1 y1 R C csx csy seed), 0, [], []⟩
        0 0).maze.cells 0 j2).has_top_wall =
        ((break_entrance_and_exit
          (createCells x1 y1 R C csx csy seed)).cells 0 j2).has_top_wall := hbd.1 j2
    rw [h1, break_entrance_top_other _ _ _ (fun hc => hj2 hc.2)]
    rfl
  · intro j2 hj2
    show ((reset_cells_visited (break_walls_r rng (genFuel R C)
      ⟨break_entrance_and_exit (createCells x1 y1 R C csx csy seed), 0, [], []⟩
      0 0).maze).cells (R - 1) j2).has_bottom_wall = true
    rw [(reset_cells_walls _ (R - 1) j2).2.2.2.1]
    have h1 : ((break_walls_r rng (genFuel R C)
        ⟨break_entrance_and_exit (createCells x1 y1 R C csx csy seed), 0, [], []⟩
        0 0).maze.cells (R - 1) j2).has_bottom_wall =
        ((break_entrance_and_exit
          (createCells x1 y1 R C csx csy seed)).cells (R - 1)
            j2).has_bottom_wall := hbd.2.1 j2
    rw [h1, break_entrance_bottom_other _ _ _ (fun hc => hj2 hc.2)]
    rfl
  · intro i2
    show ((reset_cells_visited (break_walls_r rng (genFuel R C)
      ⟨break_entrance_and_exit (createCells x1 y1 R C csx csy seed), 0, [], []⟩
      0 0).maze).cells i2 0).has_left_wall = true
    rw [(reset_cells_walls _ i2 0).1]
    have h1 : ((break_walls_r rng (genFuel R C)
        ⟨break_entrance_and_exit (createCells x1 y1 R C csx csy seed), 0, [], []⟩
        0 0).maze.cells i2 0).has_left_wall =
        ((break_entrance_and_exit
          (createCells x1 y1 R C csx csy seed)).cells i2 0).has_left_wall :=
      hbd.2.2.1 i2
    rw [h1, (break_entrance_walls_lr _ i2 0).1]
    rfl
  · intro i2
    show ((reset_cells_visited (break_walls_r rng (genFuel R C)
      ⟨break_entrance_and_exit (createCells x1 y1 R C csx csy seed), 0, [], []⟩
      0 0).maze).cells i2 (C - 1)).has_right_wall = true
    rw [(reset_cells_walls _ i2 (C - 1)).2.1]
    have h1 : ((break_walls_r rng (genFuel R C)
        ⟨break_entrance_and_exit (createCells x1 y1 R C csx csy seed), 0, [], []⟩
        0 0).maze.cells i2 (C - 1)).has_right_wall =
        ((break_entrance_and_exit
          (createCells x1 y1 R C csx csy seed)).cells i2 (C - 1)).has_right_wall :=
      hbd.2.2.2 i2
    rw [h1, (break_entrance_walls_lr _ i2 (C - 1)).2.1]
    rfl

theorem C6_fixed_openings_witness :
    ((create_cells (fun _ => 0) 0 0 2 2 10 10 none).maze.cells 0 0).has_top_wall
      = false ∧
    ((create_cells (fun _ => 0) 0 0 2 2 10 10 none).maze.cells 1 1).has_bottom_wall
      = false :=
  ⟨(C6_fixed_openings (fun _ => 0) 0 0 2 2 10 10 none (by decide) (by decide)).1,
   (C6_fixed_openings (fun _ => 0) 0 0 2 2 10 10 none (by decide) (by decide)).2.1⟩


/-- C7: on any grid whatever its wall configuration, provided every cell
starts unvisited, the solver run from `(0,0)` terminates: its result is
already stable at fuel `num_rows * num_cols` (any larger recursion budget
computes the same outcome), the chronological list of cells it enters has
no duplicate (a cell once explored is never retried, since the visited
flag is set on entry and never un-set), every entered cell is in the
grid and still marked visited at the end, and at most
`num_rows * num_cols` cells are ever entered. -/
theorem C7_solver_termination (m : Maze) (hR : 1 ≤ m.num_rows) (hC : 1 ≤ m.num_cols)
    (hvis : ∀ a b, a < m.num_rows → b < m.num_cols → (m.cells a b).visited = false) :
    (∀ fuel', m.num_rows * m.num_cols ≤ fuel' →
      solve_r fuel' ⟨m, []⟩ 0 0 = solve m) ∧
    (solve m).1.entered.Nodup ∧
    (∀ p ∈ (solve m).1.entered, inGrid m p ∧
      ((solve m).1.maze.cells p.1 p.2).visited = true) ∧
    (solve m).1.entered.length ≤ m.num_rows * m.num_cols := by
  have hu : unvisitedCount m ≤ m.num_rows * m.num_cols := unvisitedCount_le m
  have hv00 := hvis 0 0 hR hC
  obtain ⟨d, hd⟩ := solve_r_trace (m.num_rows * m.num_cols) ⟨m, []⟩ 0 0 hR hC hv00
  have he : (solve m).1.entered = d := by
    have h3 := hd.2.2.1
    simpa using h3
  refine ⟨?_, ?_, ?_, ?_⟩
  · intro fuel' hf'
    exact solve_r_fuel_stable fuel' (m.num_rows * m.num_cols) ⟨m, []⟩ 0 0 hR hC hv00
      (le_trans hu hf') hu
  · rw [he]
    exact hd.2.2.2.1
  · intro p hp
    rw [he] at hp
    exact ⟨(hd.2.2.2.2.2 p hp).1, (hd.2.2.2.2.2 p hp).2.2⟩
  · rw [he]
    exact trace_length_le hd.2.2.2.1 (fun p hp => (hd.2.2.2.2.2 p hp).1)

theorem C7_solver_termination_witness :
    solve_r 17 ⟨createCells 0 0 2 2 10 10 none, []⟩ 0 0
      = solve (createCells 0 0 2 2 10 10 none) ∧
    (solve (createCells 0 0 2 2 10 10 none)).1.entered.length ≤ 2 * 2 :=
  ⟨(C7_solver_termination (createCells 0 0 2 2 10 10 none) (by decide) (by decide)
      (fun a b _ _ => rfl)).1 17 (by decide),
   (C7_solver_termination (createCells 0 0 2 2 10 10 none) (by decide) (by decide)
      (fun a b _ _ => rfl)).2.2.2⟩


/-- C8: `_reset_cells_visited` clears the visited flag of every in-grid
cell whatever its prior value, running it twice in a row gives the same
grid as running it once (idempotence), and it modifies nothing else: all
four wall flags and the four bounding-box coordinates of every cell, and
every maze-level field, are unchanged. -/
theorem C8_reset_postcondition :
    (∀ (m : Maze) (a b : Nat), a < m.num_rows → b < m.num_cols →
      ((reset_cells_visited m).cells a b).visited = false) ∧
    (∀ m : Maze, reset_cells_visited (reset_cells_visited m) = reset_cells_visited m) ∧
    (∀ (m : Maze) (a b : Nat),
      ((reset_cells_visited m).cells a b).has_left_wall =
        (m.cells a b).has_left_wall ∧
      ((reset_cells_visited m).cells a b).has_right_wall =
        (m.cells a b).has_right_wall ∧
      ((reset_cells_visited m).cells a b).has_top_wall =
        (m.cells a b).has_top_wall ∧
      ((reset_cells_visited m).cells a b).has_bottom_wall =
        (m.cells a b).has_bottom_wall ∧
      ((reset_cells_visited m).cells a b).top_x = (m.cells a b).top_x ∧
      ((reset_cells_visited m).cells a b).top_y = (m.cells a b).top_y ∧
      ((reset_cells_visited m).cells a b).bottom_x = (m.cells a b).bottom_x ∧
      ((reset_cells_visited m).cells a b).bottom_y = (m.cells a b).bottom_y) ∧
    (∀ m : Maze, (reset_cells_visited m).num_rows = m.num_rows ∧
      (reset_cells_visited m).num_cols = m.num_cols ∧
      (reset_cells_visited m).x1 = m.x1 ∧ (reset_cells_visited m).y1 = m.y1 ∧
      (reset_cells_visited m).cell_size_x = m.cell_size_x ∧
      (reset_cells_visited m).cell_size_y = m.cell_size_y ∧
      (reset_cells_visited m).seed = m.seed) := by
  refine ⟨?_, reset_idem, ?_, ?_⟩
  · intro m a b ha hb
    rw [reset_cells_visited_eq, if_pos ⟨ha, hb⟩]
  · intro m a b
    exact reset_cells_walls m a b
  · intro m
    exact ⟨rfl, rfl, rfl, rfl, rfl, rfl, rfl⟩

theorem C8_reset_postcondition_witness :
    ((reset_cells_visited (setVisited (createCells 0 0 2 2 10 10 none)
      0 0)).cells 0 0).visited = false :=
  C8_reset_postcondition.1 (setVisited (createCells 0 0 2 2 10 10 none) 0 0) 0 0
    (by decide) (by decide)


/-- C9: the mutation discipline of the two phases.  Any solver run
preserves the dimensions, the seed and every wall flag of every cell and
only ever turns visited flags from false to true (`SolveFrame`); any
generator carve run preserves the dimensions and the seed, only ever
turns wall flags from true to false, and only ever turns visited flags
from false to true (`GenMono`). -/
theorem C9_mutation_discipline :
    (∀ (fuel : Nat) (s : SolveState) (i j : Nat),
      SolveFrame s.maze ((solve_r fuel s i j).1).maze) ∧
    (∀ (rng : Nat → Nat) (fuel : Nat) (s : GenState) (i j : Nat),
      GenMono s.maze (break_walls_r rng fuel s i j).maze) :=
  ⟨solve_r_frame, genMono_break_walls_r⟩

/-- A 1×2 grid violating the mirrored-walls invariant: the right wall of
`(0,0)` is open while the facing left wall of `(0,1)` is still present. -/
def mirrorViolation : Maze :=
  { num_rows := 1, num_cols := 2,
    cells := fun i j => if i = 0 ∧ j = 0 then { has_right_wall := false } else {} }

/-- C10: the solver decides a move solely from the current cell's wall
flag on the side facing the neighbour and never consults the neighbour's
mirrored flag: on the 1×2 grid whose `(0,0)` right wall is open while the
facing left wall of `(0,1)` is present — a violation of the mirrored
invariant — the solver still traverses into `(0,1)` and succeeds. -/
theorem C10_one_sided_traversal :
    ¬ Mirrored mirrorViolation ∧
    (mirrorViolation.cells 0 0).has_right_wall = false ∧
    (mirrorViolation.cells 0 1).has_left_wall = true ∧
    (solve mirrorViolation).2 = true ∧
    (0, 1) ∈ (solve mirrorViolation).1.entered := by
  refine ⟨?_, rfl, rfl, ?_, ?_⟩
  · intro h
    exact absurd (h.1 0 0 (by decide) (by decide)) (by decide)
  · decide
  · decide


/-- C3 counterexample: on the 2×2 grid with the random choice fixed to
the first enumerated candidate (`rng = fun _ => 0`), the carve order is
NOT `(0,0) → (0,1) → (1,1) → (1,0)` — the first enumerated candidate of
`(0,0)` is the cell below, `(1,0)`, because the source enumerates
neighbours up, down, left, right — the wall pair between `(0,0)` and
`(0,1)` stays closed, and `3` of the `4` internal wall pairs end up open,
so exactly one (not two) remains closed. -/
theorem C3_counterexample :
    (genMaze (fun _ => 0) 2 2 none).entered ≠ [(0, 0), (0, 1), (1, 1), (1, 0)] ∧
    ((genMaze (fun _ => 0) 2 2 none).maze.cells 0 0).has_right_wall = true ∧
    brokenPairs (genMaze (fun _ => 0) 2 2 none).maze = 3 := by
  refine ⟨by decide, by decide, by decide⟩

/-- C3 (amended): on the 2×2 grid with the random choice fixed to the
first enumerated candidate, generation enters the cells in the order
`(0,0), (1,0), (1,1), (0,1)`, breaking the wall pairs
`(0,0)-(1,0)`, `(1,0)-(1,1)`, `(1,1)-(0,1)` in that order; the final
configuration has the top wall of `(0,0)` and the bottom wall of `(1,1)`
open (entrance and exit), those three wall pairs open on both sides, and
the one remaining internal wall pair `(0,0)-(0,1)` closed on both sides;
all other walls are present. -/
theorem C3_first_choice_carve :
    (genMaze (fun _ => 0) 2 2 none).entered = [(0, 0), (1, 0), (1, 1), (0, 1)] ∧
    (genMaze (fun _ => 0) 2 2 none).breaks =
      [((0, 0), (1, 0)), ((1, 0), (1, 1)), ((1, 1), (0, 1))] ∧
    (((genMaze (fun _ => 0) 2 2 none).maze.cells 0 0).has_top_wall = false ∧
     ((genMaze (fun _ => 0) 2 2 none).maze.cells 0 0).has_bottom_wall = false ∧
     ((genMaze (fun _ => 0) 2 2 none).maze.cells 0 0).has_left_wall = true ∧
     ((genMaze (fun _ => 0) 2 2 none).maze.cells 0 0).has_right_wall = true) ∧
    (((genMaze (fun _ => 0) 2 2 none).maze.cells 0 1).has_top_wall = true ∧
     ((genMaze (fun _ => 0) 2 2 none).maze.cells 0 1).has_bottom_wall = false ∧
     ((genMaze (fun _ => 0) 2 2 none).maze.cells 0 1).has_left_wall = true ∧
     ((genMaze (fun _ => 0) 2 2 none).maze.cells 0 1).has_right_wall = true) ∧
    (((genMaze (fun _ => 0) 2 2 none).maze.cells 1 0).has_top_wall = false ∧
     ((genMaze (fun _ => 0) 2 2 none).maze.cells 1 0).has_bottom_wall = true ∧
     ((genMaze (fun _ => 0) 2 2 none).maze.cells 1 0).has_left_wall = true ∧
     ((genMaze (fun _ => 0) 2 2 none).maze.cells 1 0).has_right_wall = false) ∧
    (((genMaze (fun _ => 0) 2 2 none).maze.cells 1 1).has_top_wall = false ∧
     ((genMaze (fun _ => 0) 2 2 none).maze.cells 1 1).has_bottom_wall = false ∧
     ((genMaze (fun _ => 0) 2 2 none).maze.cells 1 1).has_left_wall = false ∧
     ((genMaze (fun _ => 0) 2 2 none).maze.cells 1 1).has_right_wall = true) := by
  decide

/-! ## The seed field is never read by generation -/

/-- Two generation states that agree on everything the algorithms can
read or write except the stored seed. -/
def SeedAgnostic (s t : GenState) : Prop :=
  s.maze.num_rows = t.maze.num_rows ∧ s.maze.num_cols = t.maze.num_cols ∧
  s.maze.cells = t.maze.cells ∧ s.k = t.k ∧ s.breaks = t.breaks ∧
  s.entered = t.entered

lemma toVisit_congr {m m' : Maze} (hr : m.num_rows = m'.num_rows)
    (hc : m.num_cols = m'.num_cols) (hcell : m.cells = m'.cells) (i j : Nat) :
    toVisit m i j = toVisit m' i j := by
  unfold toVisit
  rw [hr, hc, hcell]

lemma setVisited_cells_congr {m m' : Maze} (hcell : m.cells = m'.cells) (i j : Nat) :
    (setVisited m i j).cells = (setVisited m' i j).cells := by
  unfold setVisited updateCell
  rw [hcell]

lemma breakWallsBetween_cells_congr {m m' : Maze} (hcell : m.cells = m'.cells)
    (i j a b : Nat) :
    (breakWallsBetween m i j a b).cells = (breakWallsBetween m' i j a b).cells := by
  unfold breakWallsBetween
  split_ifs <;> first | exact hcell | (simp only [updateCell]; rw [hcell])

lemma seedAgnostic_genStep {s t : GenState} (h : SeedAgnostic s t) (i j : Nat)
    (p : Nat × Nat) : SeedAgnostic (genStep s i j p) (genStep t i j p) := by
  obtain ⟨hr, hc, hcell, hk, hb, he⟩ := h
  refine ⟨by simp [hr], by simp [hc], ?_, by simp [genStep, hk],
    by simp [genStep, hb], by simp [genStep, he]⟩
  show (setVisited (breakWallsBetween s.maze i j p.1 p.2) p.1 p.2).cells =
    (setVisited (breakWallsBetween t.maze i j p.1 p.2) p.1 p.2).cells
  exact setVisited_cells_congr (breakWallsBetween_cells_congr hcell i j p.1 p.2) p.1 p.2

lemma seedAgnostic_breakWallsLoop (rng : Nat → Nat) (fuel : Nat) :
    ∀ (s t : GenState) (i j : Nat), SeedAgnostic s t →
      SeedAgnostic (breakWallsLoop rng fuel s i j) (breakWallsLoop rng fuel t i j) := by
  induction fuel with
  | zero =>
    intro s t i j h
    rw [breakWallsLoop_zero, breakWallsLoop_zero]
    exact h
  | succ fuel ih =>
    intro s t i j h
    obtain ⟨hr, hc, hcell, hk, hb, he⟩ := h
    have htv : toVisit s.maze i j = toVisit t.maze i j := toVisit_congr hr hc hcell i j
    cases hl : toVisit s.maze i j with
    | nil =>
      rw [breakWallsLoop_nil rng _ hl, breakWallsLoop_nil rng _ (by rw [← htv]; exact hl)]
      exact ⟨hr, hc, hcell, hk, hb, he⟩
    | cons a ts =>
      rw [breakWallsLoop_cons rng fuel hl,
        breakWallsLoop_cons rng fuel (show toVisit t.maze i j = a :: ts by
          rw [← htv]; exact hl)]
      have hp : pickChoice rng s.k (a :: ts) = pickChoice rng t.k (a :: ts) := by
        rw [hk]
      rw [← hp]
      exact ih _ _ _ _ (ih _ _ _ _ (seedAgnostic_genStep ⟨hr, hc, hcell, hk, hb, he⟩ i j _))

lemma seedAgnostic_break_walls_r (rng : Nat → Nat) (fuel : Nat) (s t : GenState)
    (i j : Nat) (h : SeedAgnostic s t) :
    SeedAgnostic (break_walls_r rng fuel s i j) (break_walls_r rng fuel t i j) := by
  unfold break_walls_r
  apply seedAgnostic_breakWallsLoop
  obtain ⟨hr, hc, hcell, hk, hb, he⟩ := h
  exact ⟨hr, hc, setVisited_cells_congr hcell i j, hk, hb, by
    show s.entered ++ [(i, j)] = t.entered ++ [(i, j)]
    rw [he]⟩

/-- C4 counterexample: the `seed` value stored in the maze does not
determine the generated maze.  Two generations of the same `2×2` grid
carrying the same seed `some 42` but drawing differently from the global
random stream break different wall-pair sequences. -/
theorem C4_counterexample :
    (genMaze (fun _ => 0) 2 2 (some 42)).maze.seed =
      (genMaze (fun _ => 1) 2 2 (some 42)).maze.seed ∧
    (genMaze (fun _ => 0) 2 2 (some 42)).breaks ≠
      (genMaze (fun _ => 1) 2 2 (some 42)).breaks := by
  refine ⟨by decide, by decide⟩

/-- C4 (amended): the seed field is dead: generation never reads it.  For
a fixed random stream and fixed parameters, the sequence of broken
wall-pairs, the entry order, the stream position and every cell of the
resulting maze are identical across any two seed values; the output is
determined by the stream and the grid parameters alone. -/
theorem C4_seed_irrelevance (rng : Nat → Nat) (x1 y1 : Int) (R C : Nat)
    (csx csy : Int) (s1 s2 : Option Nat) :
    (create_cells rng x1 y1 R C csx csy s1).breaks =
      (create_cells rng x1 y1 R C csx csy s2).breaks ∧
    (create_cells rng x1 y1 R C csx csy s1).entered =
      (create_cells rng x1 y1 R C csx csy s2).entered ∧
    (create_cells rng x1 y1 R C csx csy s1).k =
      (create_cells rng x1 y1 R C csx csy s2).k ∧
    (create_cells rng x1 y1 R C csx csy s1).maze.cells =
      (create_cells rng x1 y1 R C csx csy s2).maze.cells := by
  have h0 : SeedAgnostic
      ⟨break_entrance_and_exit (createCells x1 y1 R C csx csy s1), 0, [], []⟩
      ⟨break_entrance_and_exit (createCells x1 y1 R C csx csy s2), 0, [], []⟩ :=
    ⟨rfl, rfl, rfl, rfl, rfl, rfl⟩
  obtain ⟨hr, hc, hcell, hk, hb, he⟩ :=
    seedAgnostic_break_walls_r rng (genFuel R C) _ _ 0 0 h0
  refine ⟨hb, he, hk, ?_⟩
  show (reset_cells_visited (break_walls_r rng (genFuel R C)
      ⟨break_entrance_and_exit (createCells x1 y1 R C csx csy s1), 0, [], []⟩
      0 0).maze).cells =
    (reset_cells_visited (break_walls_r rng (genFuel R C)
      ⟨break_entrance_and_exit (createCells x1 y1 R C csx csy s2), 0, [], []⟩
      0 0).maze).cells
  funext a b
  unfold reset_cells_visited
  dsimp only
  rw [hr, hc, hcell]

end MazePy
